import Mathlib

/-!
Formal model of the OncoAssist medical-document pipeline (modules
`app/pdf_parser.py`, `app/medical_analyzer.py`, `app/report_processor.py`,
`app/vector_service.py`, `app/services.py`), shallowly embedded in Lean 4.

Conventions used throughout:
* Python text is modelled as Lean `String` / `List Char`; the inputs under
  study are ASCII, so `Char.toLower` agrees with `str.lower`.
* Python floats are modelled as exact rationals `ℚ`; the single square root
  of the embedding-normalisation step is modelled over `ℝ`.
* Python `None` is `Option.none`; Python truthiness of a float is `≠ 0`,
  of a string is `≠ ""`, of a list is `≠ []`.
* Regular-expression search is modelled by a small backtracking matcher
  that mirrors `re.search` (leftmost match, greedy preference order).
-/

/-! ## Basic Python-style string utilities -/

/-- Whitespace characters recognised by Python `str.split` / `str.strip`
and by the regex class `\s` (ASCII range). -/
def pyIsSpace (c : Char) : Bool :=
  c = ' ' || c = '\t' || c = '\n' || c = '\r' || c = '\x0b' || c = '\x0c'

/-- Characters counted as word characters by the regex `\b` boundary
(ASCII range of Python `\w`). -/
def isWordChar (c : Char) : Bool :=
  ('a' ≤ c && c ≤ 'z') || ('A' ≤ c && c ≤ 'Z') || ('0' ≤ c && c ≤ '9') || c = '_'

/-- Python `str.lower` on a character list (ASCII). -/
def lowerChars (l : List Char) : List Char := l.map Char.toLower

/-- Python `str.lower` on a string (ASCII). -/
def pyLower (s : String) : String := (lowerChars s.toList).asString

/-- Helper for `str.split` with no separator: split a character list on
runs of whitespace, discarding empty words.  `cur` is the word being
accumulated, in reverse order. -/
def pySplitAux : List Char → List Char → List String
  | [], cur => if cur = [] then [] else [cur.reverse.asString]
  | c :: rest, cur =>
    if pyIsSpace c then
      if cur = [] then pySplitAux rest []
      else cur.reverse.asString :: pySplitAux rest []
    else pySplitAux rest (c :: cur)

/-- Python `text.split()` (split on whitespace runs, no empty tokens). -/
def pySplit (s : String) : List String := pySplitAux s.toList []

/-- Tokens of `OpenAIService._mock_embedding`: `(text or "").lower().split()`. -/
def pyTokens (s : String) : List String := pySplit (pyLower s)

/-- Python `" | ".join(parts)`, used by the two content-enrichment steps. -/
def joinBar : List String → String
  | [] => ""
  | [p] => p
  | p :: rest => p ++ " | " ++ joinBar rest

/-- Python slice `s[:n]` (by code point). -/
def takeStr (n : Nat) (s : String) : String := (s.toList.take n).asString

/-- Python `s.replace(" ", "_")`, used on the generated document id. -/
def spacesToUnderscores (s : String) : String :=
  (s.toList.map (fun c => if c = ' ' then '_' else c)).asString

/-- Substring test (`needle in haystack` for Python strings). -/
def hasPfx : List Char → List Char → Bool
  | [], _ => true
  | _ :: _, [] => false
  | p :: ps, c :: cs => p = c && hasPfx ps cs

/-- Whether `needle` occurs as a contiguous substring of `hay`. -/
def containsSub (needle : List Char) : List Char → Bool
  | [] => needle = []
  | c :: rest => hasPfx needle (c :: rest) || containsSub needle rest

/-- String-level substring test. -/
def strContains (hay needle : String) : Bool := containsSub needle.toList hay.toList

/-! ## Python numeric helpers -/

/-- Python `round` on an exact rational: round half to even (banker's
rounding), as used for the absolute neutrophil count and for
`round(similarity, 4)`. -/
def pyRound (x : ℚ) : ℤ :=
  let f : ℤ := ⌊x⌋
  let r : ℚ := x - f
  if r < 1/2 then f
  else if 1/2 < r then f + 1
  else if 2 ∣ f then f else f + 1

/-- Python `round(x, 4)` on an exact rational. -/
def round4 (x : ℚ) : ℚ := (pyRound (x * 10000) : ℚ) / 10000

/-- Python `x % 1.0` for the nonnegative values arising in the mock
embedding accumulation. -/
def pyMod1 (x : ℚ) : ℚ := x - ⌊x⌋

theorem pyRound_ge_floor (x : ℚ) : ⌊x⌋ ≤ pyRound x := by
  unfold pyRound
  dsimp only
  split
  · exact le_refl _
  · split
    · exact le_add_of_nonneg_right zero_le_one
    · split
      · exact le_refl _
      · exact le_add_of_nonneg_right zero_le_one

/-- Rounding to four decimals cannot take a similarity that passed the
threshold back below it: the threshold times `10⁴` is an integer. -/
theorem round4_ge_of_ge (x t : ℚ) (n : ℤ) (hn : (n : ℚ) = t * 10000)
    (h : t ≤ x) : t ≤ round4 x := by
  unfold round4
  have hfl : n ≤ ⌊x * 10000⌋ := by
    apply Int.le_floor.2
    rw [hn]
    have : (0:ℚ) < 10000 := by norm_num
    exact mul_le_mul_of_nonneg_right h (le_of_lt this)
  have h2 : n ≤ pyRound (x * 10000) := le_trans hfl (pyRound_ge_floor _)
  have h3 : (n : ℚ) ≤ (pyRound (x * 10000) : ℚ) := by exact_mod_cast h2
  have h4 : t * 10000 ≤ (pyRound (x * 10000) : ℚ) := by rw [← hn]; exact h3
  linarith

/-! ## SHA-256 (`hashlib.sha256`), used by `OpenAIService._mock_embedding`.

All words are `Nat` values reduced modulo `2^32` explicitly. -/

/-- Reduce to a 32-bit word. -/
def m32 (x : Nat) : Nat := x % 4294967296

/-- Rotate a 32-bit word right by `n`. -/
def rotr (n x : Nat) : Nat := m32 ((x >>> n) ||| (x <<< (32 - n)))

def sha256ch (e f g : Nat) : Nat := (e &&& f) ^^^ ((e ^^^ 4294967295) &&& g)

def sha256maj (a b c : Nat) : Nat := (a &&& b) ^^^ (a &&& c) ^^^ (b &&& c)

def bsig0 (x : Nat) : Nat := rotr 2 x ^^^ rotr 13 x ^^^ rotr 22 x

def bsig1 (x : Nat) : Nat := rotr 6 x ^^^ rotr 11 x ^^^ rotr 25 x

def ssig0 (x : Nat) : Nat := rotr 7 x ^^^ rotr 18 x ^^^ (x >>> 3)

def ssig1 (x : Nat) : Nat := rotr 17 x ^^^ rotr 19 x ^^^ (x >>> 10)

/-- The 64 SHA-256 round constants. -/
def sha256K : List Nat :=
  [1116352408, 1899447441, 3049323471, 3921009573, 961987163,
   1508970993, 2453635748, 2870763221, 3624381080, 310598401,
   607225278, 1426881987, 1925078388, 2162078206, 2614888103,
   3248222580, 3835390401, 4022224774, 264347078, 604807628,
   770255983, 1249150122, 1555081692, 1996064986, 2554220882,
   2821834349, 2952996808, 3210313671, 3336571891, 3584528711,
   113926993, 338241895, 666307205, 773529912, 1294757372,
   1396182291, 1695183700, 1986661051, 2177026350, 2456956037,
   2730485921, 2820302411, 3259730800, 3345764771, 3516065817,
   3600352804, 4094571909, 275423344, 430227734, 506948616,
   659060556, 883997877, 958139571, 1322822218, 1537002063,
   1747873779, 1955562222, 2024104815, 2227730452, 2361852424,
   2428436474, 2756734187, 3204031479, 3329325298]

/-- The initial SHA-256 hash state. -/
def sha256H0 : List Nat :=
  [1779033703, 3144134277, 1013904242, 2773480762,
   1359893119, 2600822924, 528734635, 1541459225]

/-- UTF-8 encoding of one character (`str.encode("utf-8")`). -/
def utf8Char (c : Char) : List Nat :=
  let n := c.toNat
  if n < 128 then [n]
  else if n < 2048 then [192 ||| (n >>> 6), 128 ||| (n &&& 63)]
  else if n < 65536 then
    [224 ||| (n >>> 12), 128 ||| ((n >>> 6) &&& 63), 128 ||| (n &&& 63)]
  else
    [240 ||| (n >>> 18), 128 ||| ((n >>> 12) &&& 63),
     128 ||| ((n >>> 6) &&& 63), 128 ||| (n &&& 63)]

/-- UTF-8 bytes of a string. -/
def utf8Bytes (s : String) : List Nat := s.toList.flatMap utf8Char

/-- Big-endian 8-byte encoding of the bit length. -/
def be64 (n : Nat) : List Nat :=
  [(n >>> 56) &&& 255, (n >>> 48) &&& 255, (n >>> 40) &&& 255, (n >>> 32) &&& 255,
   (n >>> 24) &&& 255, (n >>> 16) &&& 255, (n >>> 8) &&& 255, n &&& 255]

/-- SHA-256 message padding to a multiple of 64 bytes. -/
def sha256Pad (msg : List Nat) : List Nat :=
  msg ++ [128] ++ List.replicate ((120 - (msg.length + 1) % 64) % 64) 0
      ++ be64 (8 * msg.length)

/-- Group bytes into big-endian 32-bit words. -/
def bytesToWords : List Nat → List Nat
  | b0 :: b1 :: b2 :: b3 :: rest =>
    ((((b0 <<< 8) ||| b1) <<< 8 ||| b2) <<< 8 ||| b3) :: bytesToWords rest
  | _ => []

/-- Extend a 16-word block to the 64-word message schedule; `n` counts the
remaining extension steps. -/
def sha256Sched : Nat → List Nat → List Nat
  | 0, w => w
  | n + 1, w =>
    let k := w.length
    sha256Sched n (w ++ [m32 (ssig1 (w.getD (k - 2) 0) + w.getD (k - 7) 0 +
      ssig0 (w.getD (k - 15) 0) + w.getD (k - 16) 0)])

/-- One SHA-256 compression round on the 8-word state. -/
def sha256Round (st : List Nat) (kw : Nat × Nat) : List Nat :=
  match st with
  | [a, b, c, d, e, f, g, h] =>
    let t1 := m32 (h + bsig1 e + sha256ch e f g + kw.1 + kw.2)
    let t2 := m32 (bsig0 a + sha256maj a b c)
    [m32 (t1 + t2), a, b, c, m32 (d + t1), e, f, g]
  | other => other

/-- Process one 16-word block. -/
def sha256Block (st : List Nat) (block : List Nat) : List Nat :=
  let w := sha256Sched 48 block
  let st' := (sha256K.zip w).foldl sha256Round st
  List.zipWith (fun a b => m32 (a + b)) st st'

/-- Split a word list into 16-word blocks (fuelled so that it is a
structural recursion evaluable by the kernel). -/
def chunk16 : Nat → List Nat → List (List Nat)
  | 0, _ => []
  | _, [] => []
  | fuel + 1, l => l.take 16 :: chunk16 fuel (l.drop 16)

/-- SHA-256 digest of a string as the 256-bit natural number
`int(hashlib.sha256(tok.encode("utf-8")).hexdigest(), 16)`. -/
def sha256Nat (s : String) : Nat :=
  let words := bytesToWords (sha256Pad (utf8Bytes s))
  let final := (chunk16 words.length words).foldl sha256Block sha256H0
  final.foldl (fun acc w => acc * 4294967296 + w) 0

/-! ## The deterministic mock embedding (`OpenAIService._mock_embedding`)

`services.py` lines 201-219; `OpenAIService.embed` always takes this path.
Every accumulated entry is `((h >> 8) % 1000) / 1000.0` summed modulo 1.0,
i.e. an exact multiple of 1/1000 in `[0, 1)`; the accumulation is therefore
computed exactly on numerators scaled by 1000 (`x % 1.0` on such values is
`(n % 1000) / 1000`).  The final L2 normalisation divides by a real square
root. -/

/-- Embedding dimension (`dim: int = 1536`). -/
def embedDim : Nat := 1536

/-- One loop iteration of `_mock_embedding`, on numerators scaled by 1000:
`h = sha256(tok); idx = h % dim; val = ((h >> 8) % 1000) / 1000.0;`
`vec[idx] = (vec[idx] + val) % 1.0`. -/
def mockStepN (v : List Nat) (tok : String) : List Nat :=
  let h := sha256Nat tok
  let idx := h % embedDim
  let val := (h >>> 8) % 1000
  v.set idx ((v.getD idx 0 + val) % 1000)

/-- The accumulated (pre-normalisation) mock-embedding vector, as
numerators scaled by 1000. -/
def mockVecN (text : String) : List Nat :=
  (pyTokens text).foldl mockStepN (List.replicate embedDim 0)

/-- The accumulated mock-embedding vector as exact rationals. -/
def mockVec (text : String) : List ℚ :=
  (mockVecN text).map (fun n : Nat => (n : ℚ) / 1000)

/-- Sum of squares of a rational vector. -/
def sumSqQ : List ℚ → ℚ
  | [] => 0
  | x :: rest => x * x + sumSqQ rest

/-- Sum of squares of a real vector. -/
def sumSqR : List ℝ → ℝ
  | [] => 0
  | x :: rest => x * x + sumSqR rest

/-- `OpenAIService._mock_embedding`: when the token list is empty the zero
vector is returned unchanged; otherwise the accumulated vector is divided
by `math.sqrt(sum(v*v for v in vec)) or 1.0`.  (In the code the early
return for empty token lists and the `or 1.0` guard both coincide with
dividing the accumulated vector by 1 whenever its norm is zero.) -/
noncomputable def mockEmbedding (text : String) : List ℝ :=
  let v := mockVec text
  let norm : ℝ := if sumSqQ v = 0 then 1 else Real.sqrt (sumSqQ v)
  List.map (fun x : ℚ => (x : ℝ) / norm) v

/-! ### Facts about the mock embedding -/

theorem sumSqQ_nonneg (l : List ℚ) : 0 ≤ sumSqQ l := by
  induction l with
  | nil => simp [sumSqQ]
  | cons x rest ih =>
    simp only [sumSqQ]
    have := mul_self_nonneg x
    linarith

theorem sumSqQ_eq_zero_iff (l : List ℚ) : sumSqQ l = 0 ↔ ∀ x ∈ l, x = 0 := by
  induction l with
  | nil => simp [sumSqQ]
  | cons x rest ih =>
    simp only [sumSqQ, List.mem_cons]
    constructor
    · intro h
      have h1 := mul_self_nonneg x
      have h2 := sumSqQ_nonneg rest
      have hx0 : x = 0 := mul_self_eq_zero.mp (by linarith)
      have hr : sumSqQ rest = 0 := by
        have hxx : x * x = 0 := mul_self_eq_zero.mpr hx0
        linarith
      intro y hy
      rcases hy with hy | hy
      · exact hy ▸ hx0
      · exact ih.mp hr y hy
    · intro h
      have hx : x = 0 := h x (Or.inl rfl)
      have hr : sumSqQ rest = 0 := ih.mpr (fun y hy => h y (Or.inr hy))
      simp [hx, hr]

theorem mockStepN_length (v : List Nat) (tok : String) :
    (mockStepN v tok).length = v.length := by
  unfold mockStepN
  simp [List.length_set]

theorem foldl_mockStepN_length (toks : List String) (v : List Nat) :
    (toks.foldl mockStepN v).length = v.length := by
  induction toks generalizing v with
  | nil => rfl
  | cons t rest ih => simpa [List.foldl, mockStepN_length] using ih (mockStepN v t)

/-- The accumulated mock vector always has the fixed dimension 1536. -/
theorem mockVecN_length (text : String) : (mockVecN text).length = embedDim := by
  unfold mockVecN
  rw [foldl_mockStepN_length]
  simp

theorem mockVec_length (text : String) : (mockVec text).length = embedDim := by
  unfold mockVec
  rw [List.length_map, mockVecN_length]

/-- The normalisation divisor of the mock embedding for a given text. -/
noncomputable def mockNorm (text : String) : ℝ :=
  if sumSqQ (mockVec text) = 0 then 1 else Real.sqrt (sumSqQ (mockVec text))

theorem mockEmbedding_eq_map (text : String) :
    mockEmbedding text = (mockVec text).map (fun x : ℚ => (x : ℝ) / mockNorm text) := by
  unfold mockEmbedding mockNorm
  rfl

theorem mockNorm_pos (text : String) : 0 < mockNorm text := by
  unfold mockNorm
  by_cases hq : sumSqQ (mockVec text) = 0
  · simp [hq]
  · have hge : (0:ℝ) ≤ (sumSqQ (mockVec text) : ℝ) := by
      exact_mod_cast sumSqQ_nonneg (mockVec text)
    have hpos : (0:ℝ) < (sumSqQ (mockVec text) : ℝ) := by
      rcases lt_or_eq_of_le hge with h' | h'
      · exact h'
      · exact absurd (by exact_mod_cast h'.symm) hq
    simp only [hq, if_false]
    exact Real.sqrt_pos.mpr hpos

theorem mockEmbedding_length (text : String) :
    (mockEmbedding text).length = embedDim := by
  rw [mockEmbedding_eq_map, List.length_map, mockVec_length]

/-- The `i`-th rational entry of the accumulated vector, in terms of the
scaled-numerator entry. -/
theorem mockVec_getD (s : String) (i : Nat) (hi : i < embedDim) :
    (mockVec s).getD i 0 = ((mockVecN s).getD i 0 : ℚ) / 1000 := by
  have hlN : i < (mockVecN s).length := by rw [mockVecN_length]; exact hi
  have hlQ : i < (mockVec s).length := by rw [mockVec_length]; exact hi
  rw [List.getD_eq_getElem _ _ hlQ, List.getD_eq_getElem _ _ hlN]
  unfold mockVec
  rw [List.getElem_map]

theorem mockEmbedding_entry (s : String) (i : Nat) (hi : i < embedDim)
    (hA : i < (mockEmbedding s).length) :
    (mockEmbedding s).get ⟨i, hA⟩ =
      ((mockVec s).getD i 0 : ℝ) / mockNorm s := by
  have hl : i < (mockVec s).length := by rw [mockVec_length]; exact hi
  rw [List.get_eq_getElem]
  have h1 : (mockEmbedding s)[i] =
      ((mockVec s)[i] : ℝ) / mockNorm s := by
    simp only [mockEmbedding_eq_map]
    rw [List.getElem_map]
  rw [h1, List.getD_eq_getElem _ _ hl]

/-- If one accumulated vector is nonzero at some index where the other is
zero, the normalised embeddings are distinct: normalisation divides every
entry by a fixed positive real, which cannot map a nonzero entry to zero. -/
theorem mockEmbedding_ne_of_entry (t t' : String) (i : Nat) (hi : i < embedDim)
    (h1 : (mockVecN t).getD i 0 ≠ 0) (h2 : (mockVecN t').getD i 0 = 0) :
    mockEmbedding t ≠ mockEmbedding t' := by
  intro heq
  have hA : i < (mockEmbedding t).length := by rw [mockEmbedding_length]; exact hi
  have hB : i < (mockEmbedding t').length := by rw [mockEmbedding_length]; exact hi
  have hEq : (mockEmbedding t).get ⟨i, hA⟩ = (mockEmbedding t').get ⟨i, hB⟩ := by
    rw [List.get_eq_getElem, List.get_eq_getElem]
    exact List.getElem_of_eq heq hA
  rw [mockEmbedding_entry t i hi hA, mockEmbedding_entry t' i hi hB] at hEq
  rw [mockVec_getD t i hi, mockVec_getD t' i hi, h2] at hEq
  push_cast at hEq
  have hnum : ((mockVecN t).getD i 0 : ℝ) ≠ 0 := by exact_mod_cast h1
  have hden : mockNorm t ≠ 0 := ne_of_gt (mockNorm_pos t)
  have hlhs : ((mockVecN t).getD i 0 : ℝ) / 1000 / mockNorm t ≠ 0 :=
    div_ne_zero (div_ne_zero hnum (by norm_num)) hden
  apply hlhs
  rw [hEq]
  norm_num

theorem sumSqR_map_div (l : List ℚ) (s : ℝ) :
    sumSqR (List.map (fun x : ℚ => (x : ℝ) / s) l) = (sumSqQ l : ℝ) / (s * s) := by
  induction l with
  | nil => simp [sumSqR, sumSqQ]
  | cons x rest ih =>
    simp only [List.map_cons, sumSqR, sumSqQ, ih]
    push_cast
    by_cases hs : s = 0
    · simp [hs]
    · field_simp

theorem sumSqQ_replicate_zero (n : Nat) : sumSqQ (List.replicate n (0:ℚ)) = 0 := by
  induction n with
  | zero => simp [sumSqQ]
  | succ k ih => simp [List.replicate, sumSqQ, ih]

theorem sumSqR_replicate_zero (n : Nat) : sumSqR (List.replicate n (0:ℝ)) = 0 := by
  induction n with
  | zero => simp [sumSqR]
  | succ k ih => simp [List.replicate, sumSqR, ih]

/-- When the accumulated vector is zero, the mock embedding is the zero
vector of dimension 1536 (the `or 1.0` branch divides by one). -/
theorem mockEmbedding_of_sumSq_zero (t : String) (h : sumSqQ (mockVec t) = 0) :
    mockEmbedding t = List.replicate embedDim (0:ℝ) := by
  rw [mockEmbedding_eq_map]
  apply List.eq_replicate_iff.2
  constructor
  · rw [List.length_map, mockVec_length]
  · intro b hb
    rcases List.mem_map.1 hb with ⟨x, hx, hbx⟩
    have hx0 : x = 0 := (sumSqQ_eq_zero_iff (mockVec t)).1 h x hx
    rw [← hbx, hx0]
    simp

/-- When the accumulated vector is nonzero, the mock embedding has unit
Euclidean norm. -/
theorem mockEmbedding_unit_of_sumSq_ne (t : String) (h : sumSqQ (mockVec t) ≠ 0) :
    sumSqR (mockEmbedding t) = 1 := by
  rw [mockEmbedding_eq_map, sumSqR_map_div]
  have hnorm : mockNorm t = Real.sqrt (sumSqQ (mockVec t)) := by
    unfold mockNorm
    simp [h]
  rw [hnorm]
  have hge : (0:ℝ) ≤ (sumSqQ (mockVec t) : ℝ) := by
    exact_mod_cast sumSqQ_nonneg (mockVec t)
  rw [Real.mul_self_sqrt hge]
  have hne : (sumSqQ (mockVec t) : ℝ) ≠ 0 := by exact_mod_cast h
  field_simp

/-- C5 (amended): the offline mock embedding (`OpenAIService._mock_embedding`,
the deterministic fallback used by `OpenAIService.embed`) always returns a
vector of the fixed dimension 1536, and that vector is L2-normalized (unit
Euclidean norm) whenever the accumulated token vector is nonzero; otherwise
(e.g. for empty or whitespace-only input) the zero vector is returned.
Determinism holds because the function is pure: it is a function of the
input text alone. -/
theorem c5_fallback_embedding_deterministic_normalized (t : String) :
    (mockEmbedding t).length = 1536 ∧
      (sumSqR (mockEmbedding t) = 1 ∨ mockEmbedding t = List.replicate 1536 (0:ℝ)) := by
  constructor
  · exact mockEmbedding_length t
  · by_cases h : sumSqQ (mockVec t) = 0
    · exact Or.inr (mockEmbedding_of_sumSq_zero t h)
    · exact Or.inl (mockEmbedding_unit_of_sumSq_ne t h)

/-- C5 counterexample: on the empty input text the mock embedding returns
the all-zero vector, whose Euclidean norm is 0, not 1 — so the claim that
the returned vector is always L2-normalized (unit norm) is false. -/
theorem c5_counterexample_empty_text_not_unit_norm :
    mockEmbedding "" = List.replicate 1536 (0:ℝ) ∧ sumSqR (mockEmbedding "") ≠ 1 := by
  have hvN : mockVecN "" = List.replicate embedDim 0 := rfl
  have hv : mockVec "" = List.replicate embedDim (((0:Nat):ℚ)/1000) := by
    unfold mockVec
    rw [hvN, List.map_replicate]
  have h00 : ((0:Nat):ℚ)/1000 = 0 := by norm_num
  have hv' : mockVec "" = List.replicate embedDim (0:ℚ) := by
    rw [hv, h00]
  have hz : sumSqQ (mockVec "") = 0 := by rw [hv']; exact sumSqQ_replicate_zero _
  have he := mockEmbedding_of_sumSq_zero "" hz
  refine ⟨he, ?_⟩
  rw [he, sumSqR_replicate_zero]
  norm_num

/-! ## A small regex matcher mirroring `re.search`

The matcher enumerates matches at a given start position in Python's
backtracking preference order (alternatives left first, `*` and `?`
greedy).  `re.search` semantics are obtained by trying start positions
left to right and taking the first position with a match, then the first
match in preference order.  The constructs are exactly those used by the
patterns of `pdf_parser.detect_report_type` and `CBCAnalyzer`: character
classes, sequencing, alternation, greedy star, word boundary `\b`, and a
single capture group. -/

inductive Re where
  | eps : Re
  | cls : (Char → Bool) → Re
  | seq : Re → Re → Re
  | alt : Re → Re → Re
  | star : Re → Re
  | wb : Re
  | grp : Re → Re

/-- Syntactic size, used only to pick a sufficient recursion fuel. -/
def reSize : Re → Nat
  | .eps => 1
  | .cls _ => 1
  | .wb => 1
  | .seq a b => reSize a + reSize b + 1
  | .alt a b => reSize a + reSize b + 1
  | .star a => reSize a + 1
  | .grp a => reSize a + 1

/-- Word-character test on the optional character before the position
(`none` at the ends of the text counts as non-word). -/
def isWordOpt : Option Char → Bool
  | none => false
  | some c => isWordChar c

/-- Word-character test on the first character of the remaining input. -/
def headWordB : List Char → Bool
  | [] => false
  | c :: _ => isWordChar c

/-- One match alternative: the character preceding the new position, the
remaining input, and the captured group if any. -/
structure MRes where
  prev : Option Char
  rest : List Char
  cap : Option (List Char)

/-- Later (inner) captures win; with at most one group per pattern the
choice is immaterial. -/
def mergeCap (ca cb : Option (List Char)) : Option (List Char) :=
  match cb with
  | some x => some x
  | none => ca

/-- All ways to match `r` at the current position, in backtracking
preference order.  `fuel` bounds the recursion depth; every star iteration
is required to consume at least one character (all starred subpatterns in
the modelled regexes are single-character classes, for which this is
exact), so any fuel beyond the pattern size plus the input length is
enough for the enumeration to be complete. -/
def mat : Nat → Re → Option Char → List Char → List MRes
  | 0, _, _, _ => []
  | fuel + 1, r, prev, l =>
    match r with
    | .eps => [⟨prev, l, none⟩]
    | .wb => if isWordOpt prev != headWordB l then [⟨prev, l, none⟩] else []
    | .cls p =>
      match l with
      | [] => []
      | c :: rest => if p c then [⟨some c, rest, none⟩] else []
    | .seq a b =>
      (mat fuel a prev l).flatMap (fun ra =>
        (mat fuel b ra.prev ra.rest).map (fun rb => ⟨rb.prev, rb.rest, mergeCap ra.cap rb.cap⟩))
    | .alt a b => mat fuel a prev l ++ mat fuel b prev l
    | .grp a =>
      (mat fuel a prev l).map (fun ra =>
        ⟨ra.prev, ra.rest, some (l.take (l.length - ra.rest.length))⟩)
    | .star a =>
      ((mat fuel a prev l).filter (fun ra => ra.rest.length < l.length)).flatMap
        (fun ra => mat fuel (.star a) ra.prev ra.rest) ++ [⟨prev, l, none⟩]

/-- Fuel sufficient for a complete enumeration (see `mat`): along any
nesting path the matcher descends through at most `reSize r` constructors
plus one star iteration per consumed character. -/
def matFuel (r : Re) (l : List Char) : Nat := l.length + reSize r + 2

/-- Scan start positions left to right; `some cap` means a match was found
and `cap` is its first capture group (if the pattern has one). -/
def reSearchAux (r : Re) (fuel : Nat) : Option Char → List Char → Option (Option (List Char))
  | prev, l =>
    match mat fuel r prev l with
    | res :: _ => some res.cap
    | [] =>
      match l with
      | [] => none
      | c :: rest => reSearchAux r fuel (some c) rest

/-- `re.search(pattern, s)`: `some cap` on a match, `none` otherwise. -/
def reSearch (r : Re) (s : String) : Option (Option (List Char)) :=
  let l := s.toList
  reSearchAux r (matFuel r l) none l

/-- Boolean `re.search` test. -/
def reTest (r : Re) (s : String) : Bool := (reSearch r s).isSome

/-- The first capture group of the first match, when present. -/
def reCapture (r : Re) (s : String) : Option (List Char) :=
  match reSearch r s with
  | some c => c
  | none => none

/-- Case-sensitive literal. -/
def litOf (s : String) : Re :=
  (s.toList.map (fun c => Re.cls (fun d => d = c))).foldr Re.seq Re.eps

/-- Case-insensitive literal (for patterns compiled with `re.I`). -/
def ilitOf (s : String) : Re :=
  (s.toList.map (fun c => Re.cls (fun d => d.toLower = c.toLower))).foldr Re.seq Re.eps

/-- Greedy `?`. -/
def optRe (r : Re) : Re := Re.alt r Re.eps

/-- Sequence a list of regexes. -/
def seqs (rs : List Re) : Re := rs.foldr Re.seq Re.eps

def wsCls : Re := Re.cls pyIsSpace

def wsStar : Re := Re.star wsCls

def wsPlus : Re := Re.seq wsCls wsStar

def dotCls : Re := Re.cls (fun c => c ≠ '\n')

def dashSpaceOpt : Re := optRe (Re.cls (fun c => c = '-' || c = ' '))

def digitCls : Re := Re.cls (fun c => '0' ≤ c && c ≤ '9')

def digitsPlus : Re := Re.seq digitCls (Re.star digitCls)

/-- The number pattern `[0-9]+(?:\.[0-9]+)?` shared by the CBC extractors. -/
def numRe : Re := Re.seq digitsPlus (optRe (Re.seq (litOf ".") digitsPlus))

/-! ## Report classifier (`PDFParsingService.detect_report_type`)

The three marker-pattern lists, checked against the lowercased text in the
fixed order PET/CT (imaging) → biopsy (pathology) → CBC (blood count);
the first list with any match wins, otherwise the type is `unknown`. -/

/-- The imaging marker `\bpet/?ct\b` (matches "PET/CT" in lowered text). -/
def petCtMarker : Re := seqs [Re.wb, litOf "pet", optRe (litOf "/"), litOf "ct", Re.wb]

/-- The blood-count marker `\bhemoglobin\b`. -/
def hemoglobinMarker : Re := seqs [Re.wb, litOf "hemoglobin", Re.wb]

/-- Imaging markers (`pet_patterns` in the source). -/
def petPatterns : List Re :=
  [petCtMarker,
   seqs [Re.wb, litOf "fdg", Re.wb],
   seqs [Re.wb, litOf "suv", wsStar, litOf "max", Re.wb],
   seqs [Re.wb, litOf "suvmax", Re.wb],
   seqs [Re.wb, litOf "whole", dashSpaceOpt, litOf "body", Re.wb],
   litOf "positron emission tomography"]

/-- Pathology markers (`biopsy_patterns` in the source). -/
def biopsyPatterns : List Re :=
  [seqs [Re.wb, litOf "histopatholog", Re.alt (litOf "y") (litOf "ical"), Re.wb],
   seqs [Re.wb, litOf "biopsy", Re.wb],
   seqs [Re.wb, litOf "immunohistochemistry", Re.wb],
   seqs [Re.wb, litOf "ihc", Re.wb],
   seqs [Re.wb, litOf "er", Re.wb, Re.star dotCls, Re.wb, litOf "pr", Re.wb],
   seqs [Re.wb, litOf "her2", Re.wb],
   seqs [Re.wb, litOf "ki", dashSpaceOpt, litOf "67", Re.wb],
   seqs [Re.wb, litOf "nottingham", Re.wb],
   seqs [Re.wb, litOf "bloom", dashSpaceOpt, litOf "richardson", Re.wb]]

/-- Blood-count markers (`cbc_patterns` in the source). -/
def cbcPatterns : List Re :=
  [seqs [Re.wb, litOf "complete", wsPlus, litOf "blood", wsPlus, litOf "count", Re.wb],
   seqs [Re.wb, litOf "c", optRe (litOf "."), litOf "b", optRe (litOf "."),
         litOf "c", optRe (litOf "."), Re.wb],
   seqs [Re.wb, litOf "haematology", wsPlus, litOf "test", wsPlus, litOf "report", Re.wb],
   seqs [Re.wb, litOf "wbc", Re.wb],
   seqs [Re.wb, litOf "tlc", Re.wb],
   hemoglobinMarker,
   seqs [Re.wb, litOf "platelet", wsPlus, litOf "count", Re.wb]]

/-- Whether any pattern of the list matches the (lowercased) text. -/
def matchesAny (ps : List Re) (s : String) : Bool := ps.any (fun r => reTest r s)

/-- `detect_report_type`: lowercase the text, then check the three marker
sets in the fixed priority order. -/
def detectReportType (text : String) : String :=
  let tl := pyLower text
  if matchesAny petPatterns tl then "pet_ct"
  else if matchesAny biopsyPatterns tl then "biopsy"
  else if matchesAny cbcPatterns tl then "cbc"
  else "unknown"

/-! ## CBC extraction (`CBCAnalyzer`) -/

/-- The digit value of an ASCII digit character. -/
def digitVal (c : Char) : Nat := c.toNat - 48

/-- Exact value of a matched `[0-9]+(?:\.[0-9]+)?` group (Python `float`). -/
def parseNumQ (cs : List Char) : ℚ :=
  let intPart := cs.takeWhile (fun c => c ≠ '.')
  let fracPart := (cs.dropWhile (fun c => c ≠ '.')).drop 1
  let iv : ℚ := ((intPart.foldl (fun acc c => acc * 10 + digitVal c) 0 : Nat) : ℚ)
  let fv : ℚ := ((fracPart.foldl (fun acc c => acc * 10 + digitVal c) 0 : Nat) : ℚ)
  iv + fv / ((10 ^ fracPart.length : Nat) : ℚ)

/-- `CBCAnalyzer._extract_number_before_label`:
`re.search(rf"([0-9]+(?:\.[0-9]+)?)\s*{label_regex}", text, re.I)`. -/
def extractNumBeforeLabel (label : Re) (text : String) : Option ℚ :=
  (reCapture (seqs [Re.grp numRe, wsStar, label]) text).map parseNumQ

/-- `CBCAnalyzer._extract_number_after_label`:
`re.search(rf"{label_regex}\s*[:\-]?\s*([0-9]+(?:\.[0-9]+)?)", text, re.I)`. -/
def extractNumAfterLabel (label : Re) (text : String) : Option ℚ :=
  (reCapture (seqs [label, wsStar, optRe (Re.cls (fun c => c = ':' || c = '-')),
                    wsStar, Re.grp numRe]) text).map parseNumQ

/-- Label regex `TLC\b`. -/
def tlcLabel : Re := Re.seq (ilitOf "tlc") Re.wb

/-- Label regex `\bWBC\b`. -/
def wbcLabel : Re := seqs [Re.wb, ilitOf "wbc", Re.wb]

/-- Label regex `HAEMOGLOBIN\b`. -/
def haemLabel : Re := Re.seq (ilitOf "haemoglobin") Re.wb

/-- Label regex `Hemoglobin\b`. -/
def hemoLabel : Re := Re.seq (ilitOf "hemoglobin") Re.wb

/-- Label regex `PLATELET\s+COUNT(?:\s*\(OPTICAL\))?\b`. -/
def plateletCountLabel : Re :=
  seqs [ilitOf "platelet", wsPlus, ilitOf "count",
        optRe (Re.seq wsStar (ilitOf "(optical)")), Re.wb]

/-- Label regex `\bPLATELETS?\b`. -/
def plateletsLabel : Re := seqs [Re.wb, ilitOf "platelet", optRe (ilitOf "s"), Re.wb]

/-- Label regex `Neutrophils\b`. -/
def neutLabel : Re := Re.seq (ilitOf "neutrophils") Re.wb

/-- Python float truthiness of an optional value (`None` and `0.0` are
falsy). -/
def pyTruthy : Option ℚ → Bool
  | none => false
  | some x => x ≠ 0

/-- Python `a or b` on optional float values: `a` if truthy, else `b`. -/
def pyOr (a b : Option ℚ) : Option ℚ := if pyTruthy a then a else b

/-- Structured result of `CBCAnalyzer.parse_cbc_report`. -/
structure CbcResult where
  wbc : Option ℚ
  hemoglobin : Option ℚ
  platelets : Option ℚ
  neutrophils_percent : Option ℚ
  anc : Option ℤ
  flags : List String
  alert_level : String
deriving DecidableEq, Repr

/-- `CBCAnalyzer.parse_cbc_report`.  `numStr` abstracts Python's decimal
rendering of floats inside the flag strings (the numeric fields are not
affected by it). -/
def parseCbc (numStr : ℚ → String) (text : String) : CbcResult :=
  let wbc := pyOr (pyOr (extractNumBeforeLabel tlcLabel text)
      (extractNumAfterLabel tlcLabel text)) (extractNumAfterLabel wbcLabel text)
  let hemoglobin := pyOr (pyOr (extractNumBeforeLabel haemLabel text)
      (extractNumAfterLabel haemLabel text)) (extractNumAfterLabel hemoLabel text)
  let platelets := pyOr (pyOr (extractNumBeforeLabel plateletCountLabel text)
      (extractNumAfterLabel plateletCountLabel text)) (extractNumAfterLabel plateletsLabel text)
  let neut := pyOr (extractNumBeforeLabel neutLabel text) (extractNumAfterLabel neutLabel text)
  let anc : Option ℤ :=
    match wbc, neut with
    | some w, some n => some (pyRound (w * (n / 100)))
    | _, _ => none
  let flags :=
    (match wbc with
     | some w => if w < 4000 then ["WBC low (" ++ numStr w ++ "/µL, normal ≥4000)"] else []
     | none => []) ++
    (match anc with
     | some a => if a < 1000 then ["ANC low (" ++ toString a ++ "/µL, normal ≥1000)"] else []
     | none => []) ++
    (match hemoglobin with
     | some h => if h < 10 then ["Hemoglobin low (" ++ numStr h ++ " g/dL, normal ≥10.0)"] else []
     | none => []) ++
    (match platelets with
     | some p => if p < 150000 then ["Platelets low (" ++ numStr p ++ "/µL, normal ≥150000)"] else []
     | none => [])
  { wbc := wbc, hemoglobin := hemoglobin, platelets := platelets,
    neutrophils_percent := neut, anc := anc, flags := flags,
    alert_level := if flags.any (fun f => strContains f "low") then "high" else "normal" }

/-- C6: the report classifier checks its marker sets in the fixed priority
order imaging (`pet_ct`) → pathology (`biopsy`) → blood count (`cbc`),
returns the label of the first set with any match and `unknown` when none
match; in particular any text matching the `PET/CT` imaging marker is
classified `pet_ct` even when it also matches the `hemoglobin` blood-count
marker. -/
theorem c6_classifier_fixed_priority_order (text : String) :
    (matchesAny petPatterns (pyLower text) = true → detectReportType text = "pet_ct") ∧
    (matchesAny petPatterns (pyLower text) = false →
      matchesAny biopsyPatterns (pyLower text) = true → detectReportType text = "biopsy") ∧
    (matchesAny petPatterns (pyLower text) = false →
      matchesAny biopsyPatterns (pyLower text) = false →
      matchesAny cbcPatterns (pyLower text) = true → detectReportType text = "cbc") ∧
    (matchesAny petPatterns (pyLower text) = false →
      matchesAny biopsyPatterns (pyLower text) = false →
      matchesAny cbcPatterns (pyLower text) = false → detectReportType text = "unknown") ∧
    (reTest petCtMarker (pyLower text) = true →
      reTest hemoglobinMarker (pyLower text) = true → detectReportType text = "pet_ct") := by
  refine ⟨?_, ?_, ?_, ?_, ?_⟩
  · intro h; simp [detectReportType, h]
  · intro h1 h2; simp [detectReportType, h1, h2]
  · intro h1 h2 h3; simp [detectReportType, h1, h2, h3]
  · intro h1 h2 h3; simp [detectReportType, h1, h2, h3]
  · intro hpet _
    have hany : matchesAny petPatterns (pyLower text) = true := by
      apply List.any_eq_true.2
      exact ⟨petCtMarker, by simp [petPatterns], hpet⟩
    simp [detectReportType, hany]

/-- C6 witness: a text containing both "PET/CT" and "hemoglobin" is
classified as imaging, not blood count. -/
theorem c6_witness_petct_and_hemoglobin :
    detectReportType "PET/CT scan shows hemoglobin 9.5" = "pet_ct" :=
  (c6_classifier_fixed_priority_order "PET/CT scan shows hemoglobin 9.5").2.2.2.2
    (by decide) (by decide)

/-- Evaluation helper: a captured group with no decimal point denotes the
natural number computed by the digit fold. -/
theorem parseNumQ_nat (cs : List Char) (a : Nat)
    (ha : (cs.takeWhile (fun c => c ≠ '.')).foldl (fun acc c => acc * 10 + digitVal c) 0 = a)
    (hb : (cs.dropWhile (fun c => c ≠ '.')).drop 1 = []) :
    parseNumQ cs = (a : ℚ) := by
  simp only [parseNumQ]
  rw [ha, hb]
  norm_num

/-- Python `round` of an integer value is that integer. -/
theorem pyRound_intCast (n : ℤ) : pyRound (n : ℚ) = n := by
  unfold pyRound
  rw [Int.floor_intCast]
  norm_num

/-- Rewriting helper: the before-label extractor applied to a text whose
first match captured `cs`. -/
theorem extractNumBefore_eq_of_capture (label : Re) (text : String) (cs : List Char)
    (h : reCapture (seqs [Re.grp numRe, wsStar, label]) text = some cs) :
    extractNumBeforeLabel label text = some (parseNumQ cs) := by
  unfold extractNumBeforeLabel
  rw [h]
  rfl

/-- Rewriting helper: the before-label extractor on a text with no match. -/
theorem extractNumBefore_none_of_capture (label : Re) (text : String)
    (h : reCapture (seqs [Re.grp numRe, wsStar, label]) text = none) :
    extractNumBeforeLabel label text = none := by
  unfold extractNumBeforeLabel
  rw [h]
  rfl

/-- Rewriting helper: the after-label extractor applied to a text whose
first match captured `cs`. -/
theorem extractNumAfter_eq_of_capture (label : Re) (text : String) (cs : List Char)
    (h : reCapture (seqs [label, wsStar, optRe (Re.cls (fun c => c = ':' || c = '-')),
        wsStar, Re.grp numRe]) text = some cs) :
    extractNumAfterLabel label text = some (parseNumQ cs) := by
  unfold extractNumAfterLabel
  rw [h]
  rfl

/-- Rewriting helper: the after-label extractor on a text with no match. -/
theorem extractNumAfter_none_of_capture (label : Re) (text : String)
    (h : reCapture (seqs [label, wsStar, optRe (Re.cls (fun c => c = ':' || c = '-')),
        wsStar, Re.grp numRe]) text = none) :
    extractNumAfterLabel label text = none := by
  unfold extractNumAfterLabel
  rw [h]
  rfl

/-- Python `a or b` keeps a truthy (nonzero) left operand. -/
theorem pyOr_of_nonzero (a b : Option ℚ) (x : ℚ) (ha : a = some x) (hx : x ≠ 0) :
    pyOr a b = some x := by
  subst ha
  simp [pyOr, pyTruthy, hx]

/-- Python `a or b` falls through on a `None` left operand. -/
theorem pyOr_none_left (b : Option ℚ) : pyOr none b = b := by
  simp [pyOr, pyTruthy]

/-- Python `a or b` falls through on a zero (falsy) left operand. -/
theorem pyOr_zero_left (b : Option ℚ) (a : Option ℚ) (ha : a = some 0) :
    pyOr a b = b := by
  subst ha
  simp [pyOr, pyTruthy]

/-- C7 (amended): the extraction strategies for each CBC field are tried
in the fixed order (1) number-before-label, (2) label-colon/dash-number,
(3) loose label-then-number, but via Python `or`-chaining, so the first
strategy producing a non-`None`, **nonzero** value wins; a strategy that
matches the value 0 is treated like a failed match and the later
strategies are still attempted.  Whenever the number-before-label pattern
matches a nonzero value, that value is the extracted result. -/
theorem c7_extractor_fallback_order (text : String) (v : ℚ) (hv : v ≠ 0)
    (numStr : ℚ → String) :
    (extractNumBeforeLabel tlcLabel text = some v →
      (parseCbc numStr text).wbc = some v) ∧
    (extractNumBeforeLabel haemLabel text = some v →
      (parseCbc numStr text).hemoglobin = some v) ∧
    (extractNumBeforeLabel plateletCountLabel text = some v →
      (parseCbc numStr text).platelets = some v) ∧
    (extractNumBeforeLabel neutLabel text = some v →
      (parseCbc numStr text).neutrophils_percent = some v) ∧
    (pyTruthy (extractNumBeforeLabel tlcLabel text) = false →
      extractNumAfterLabel tlcLabel text = some v →
      (parseCbc numStr text).wbc = some v) := by
  have htr : pyTruthy (some v) = true := by simp [pyTruthy, hv]
  refine ⟨?_, ?_, ?_, ?_, ?_⟩
  · intro h; simp [parseCbc, pyOr, h, htr]
  · intro h; simp [parseCbc, pyOr, h, htr]
  · intro h; simp [parseCbc, pyOr, h, htr]
  · intro h; simp [parseCbc, pyOr, h, htr]
  · intro h1 h2; simp [parseCbc, pyOr, h1, h2, htr]

set_option maxRecDepth 3000 in
/-- C7 witness: in "3650 TLC" the number-before-label strategy matches
3650 and that value is the extracted white-cell count. -/
theorem c7_witness_before_label_wins :
    (parseCbc (fun _ => "") "3650 TLC").wbc = some 3650 := by
  have hc : reCapture (seqs [Re.grp numRe, wsStar, tlcLabel]) "3650 TLC" =
      some ['3', '6', '5', '0'] := by decide
  have hb := extractNumBefore_eq_of_capture tlcLabel "3650 TLC" _ hc
  have hv : parseNumQ ['3', '6', '5', '0'] = 3650 :=
    parseNumQ_nat _ 3650 (by decide) (by decide)
  rw [hv] at hb
  exact (c7_extractor_fallback_order "3650 TLC" 3650 (by norm_num) (fun _ => "")).1 hb

set_option maxRecDepth 3000 in
/-- C7 counterexample: in "0 TLC WBC: 5" the number-before-label strategy
matches (with value 0), yet the extracted white-cell count comes from the
later loose after-label strategy (5), because Python `or` treats the float
0.0 as missing — refuting the claim that the first matching strategy's
value is always returned. -/
theorem c7_counterexample_zero_match_falls_through :
    extractNumBeforeLabel tlcLabel "0 TLC WBC: 5" = some 0 ∧
      (parseCbc (fun _ => "") "0 TLC WBC: 5").wbc = some 5 := by
  have hc0 : reCapture (seqs [Re.grp numRe, wsStar, tlcLabel]) "0 TLC WBC: 5" =
      some ['0'] := by decide
  have hb := extractNumBefore_eq_of_capture tlcLabel "0 TLC WBC: 5" _ hc0
  have h0 : parseNumQ ['0'] = 0 := parseNumQ_nat _ 0 (by decide) (by decide)
  rw [h0] at hb
  have ha1 : reCapture (seqs [tlcLabel, wsStar, optRe (Re.cls (fun c => c = ':' || c = '-')),
      wsStar, Re.grp numRe]) "0 TLC WBC: 5" = none := by decide
  have ha1' := extractNumAfter_none_of_capture tlcLabel "0 TLC WBC: 5" ha1
  have ha2 : reCapture (seqs [wbcLabel, wsStar, optRe (Re.cls (fun c => c = ':' || c = '-')),
      wsStar, Re.grp numRe]) "0 TLC WBC: 5" = some ['5'] := by decide
  have ha2' := extractNumAfter_eq_of_capture wbcLabel "0 TLC WBC: 5" _ ha2
  have h5 : parseNumQ ['5'] = 5 := parseNumQ_nat _ 5 (by decide) (by decide)
  rw [h5] at ha2'
  refine ⟨hb, ?_⟩
  show (parseCbc (fun _ => "") "0 TLC WBC: 5").wbc = some 5
  simp only [parseCbc]
  rw [pyOr_zero_left _ _ hb, ha1', pyOr_none_left, ha2']

/-- C8: the absolute neutrophil count is derived, never extracted: it
equals `round(wbc * neutrophil_percent / 100)` (Python banker's rounding)
whenever both inputs are present, and is `None` whenever either input is
`None`. -/
theorem c8_anc_derived_not_extracted (numStr : ℚ → String) (text : String) :
    (∀ w n, (parseCbc numStr text).wbc = some w →
      (parseCbc numStr text).neutrophils_percent = some n →
      (parseCbc numStr text).anc = some (pyRound (w * (n / 100)))) ∧
    ((parseCbc numStr text).wbc = none → (parseCbc numStr text).anc = none) ∧
    ((parseCbc numStr text).neutrophils_percent = none →
      (parseCbc numStr text).anc = none) := by
  refine ⟨?_, ?_, ?_⟩
  · intro w n hw hn
    simp only [parseCbc] at hw hn ⊢
    rw [hw, hn]
  · intro hw
    simp only [parseCbc] at hw ⊢
    rw [hw]
  · intro hn
    simp only [parseCbc] at hn ⊢
    rw [hn]
    rcases pyOr (pyOr (extractNumBeforeLabel tlcLabel text)
        (extractNumAfterLabel tlcLabel text)) (extractNumAfterLabel wbcLabel text) with _ | w
    · rfl
    · rfl

set_option maxRecDepth 3000 in
/-- C8 witness: for WBC 5000 and neutrophils 60 percent the derived ANC is
3000. -/
theorem c8_witness_anc_3000 :
    (parseCbc (fun _ => "") "5000 TLC 60 Neutrophils").anc = some 3000 := by
  have hcw : reCapture (seqs [Re.grp numRe, wsStar, tlcLabel]) "5000 TLC 60 Neutrophils" =
      some ['5', '0', '0', '0'] := by decide
  have hbw := extractNumBefore_eq_of_capture tlcLabel "5000 TLC 60 Neutrophils" _ hcw
  have hvw : parseNumQ ['5', '0', '0', '0'] = 5000 :=
    parseNumQ_nat _ 5000 (by decide) (by decide)
  rw [hvw] at hbw
  have hcn : reCapture (seqs [Re.grp numRe, wsStar, neutLabel]) "5000 TLC 60 Neutrophils" =
      some ['6', '0'] := by decide
  have hbn := extractNumBefore_eq_of_capture neutLabel "5000 TLC 60 Neutrophils" _ hcn
  have hvn : parseNumQ ['6', '0'] = 60 :=
    parseNumQ_nat _ 60 (by decide) (by decide)
  rw [hvn] at hbn
  have hw : (parseCbc (fun _ => "") "5000 TLC 60 Neutrophils").wbc = some 5000 := by
    simp only [parseCbc]
    rw [pyOr_of_nonzero _ _ 5000 (pyOr_of_nonzero _ _ 5000 hbw (by norm_num)) (by norm_num)]
  have hn : (parseCbc (fun _ => "") "5000 TLC 60 Neutrophils").neutrophils_percent =
      some 60 := by
    simp only [parseCbc]
    rw [pyOr_of_nonzero _ _ 60 hbn (by norm_num)]
  have h := (c8_anc_derived_not_extracted (fun _ => "") "5000 TLC 60 Neutrophils").1
    5000 60 hw hn
  rw [h]
  have : (5000 : ℚ) * (60 / 100) = 3000 := by norm_num
  rw [this]
  have hfl : pyRound 3000 = 3000 := by
    have h := pyRound_intCast 3000
    norm_num at h
    exact h
  rw [hfl]

/-! ## Pipeline orchestrator (`MedicalReportProcessor`)

`process_single_pdf` parses the PDF into structured data, runs the
type-specific analyzer unless the type is `unknown`, embeds a searchable
text (`OpenAIService.embed`, i.e. the mock embedding), and stores the
document via `_store_in_tidb`.  The analyzers for `pet_ct` and `biopsy`
live in a separate module and are abstracted as the `analyze` parameter of
the orchestrator model (the spec itself treats them as injected
components); the claims below hold for every analyzer.  Python's decimal
rendering of floats in the searchable text is abstracted as the `numStr`
parameter. -/

/-- The fields of `structured_data` read by the orchestrator: the
classified report type, the patient dict produced by
`extract_patient_info` (name, id, contact), the normalized text content
and the source file. -/
structure StructuredData where
  report_type : String
  patient_name : String
  patient_id : String
  patient_contact : String
  text_content : String
  source_file : String
deriving DecidableEq

/-- ER/PR receptor block of a biopsy `analysis_result` (empty string means
absent, matching Python falsy ""). -/
structure ReceptorInfo where
  status : String
  percent : String
  allred : String
deriving DecidableEq

/-- `tnm_staging` block of a PET/CT `analysis_result`. -/
structure TnmStaging where
  t : Option String
  n : Option String
  m : Option String
  stage_group : Option String
deriving DecidableEq

/-- The fields of an `analysis_result` dict read by
`_create_searchable_text`: CBC numbers and flags, PET/CT staging, biopsy
histology/grade/receptors, and the patient summary.  Absent dict keys are
`none` / `""` / `[]`. -/
structure Analysis where
  wbc : Option ℚ
  hemoglobin : Option ℚ
  platelets : Option ℚ
  neutrophils_percent : Option ℚ
  anc : Option ℤ
  flags : List String
  tnm_staging : Option TnmStaging
  histology : String
  grade : String
  er : ReceptorInfo
  pr : ReceptorInfo
  patient_summary : String
deriving DecidableEq

/-- The empty `analysis_result` dict (`{}`), used when the report type is
`unknown` and no analyzer runs. -/
def emptyAnalysis : Analysis :=
  ⟨none, none, none, none, none, [], none, "", "", ⟨"", "", ""⟩, ⟨"", "", ""⟩, ""⟩

/-- A numeric part of the searchable text: included only when the value is
present and truthy (Python `if cbc.get("wbc"):` treats 0.0 as absent). -/
def numPart (numStr : ℚ → String) (label : String) : Option ℚ → List String
  | some q => if q ≠ 0 then [label ++ numStr q] else []
  | none => []

/-- `MedicalReportProcessor._create_searchable_text`. -/
def searchableText (numStr : ℚ → String) (sd : StructuredData) (a : Analysis) : String :=
  let base :=
    (if sd.patient_name ≠ "" then ["Patient: " ++ sd.patient_name] else []) ++
    ["Report type: " ++ sd.report_type]
  let typed :=
    if sd.report_type = "cbc" then
      ["Blood test results:"] ++
      numPart numStr "WBC: " a.wbc ++
      numPart numStr "Hemoglobin: " a.hemoglobin ++
      numPart numStr "Platelets: " a.platelets ++
      a.flags
    else if sd.report_type = "pet_ct" then
      match a.tnm_staging with
      | some tnm =>
        ["TNM staging: " ++ tnm.t.getD "" ++ " " ++ tnm.n.getD "" ++ " " ++ tnm.m.getD "",
         "Stage: " ++ tnm.stage_group.getD ""]
      | none => []
    else if sd.report_type = "biopsy" then
      (if a.histology ≠ "" then ["Histology: " ++ a.histology] else []) ++
      (if a.grade ≠ "" then ["Grade: " ++ a.grade] else []) ++
      (if a.er.status ≠ "" then ["ER: " ++ a.er.status] else []) ++
      (if a.pr.status ≠ "" then ["PR: " ++ a.pr.status] else [])
    else []
  let summaryPart := if a.patient_summary ≠ "" then [a.patient_summary] else []
  let contentPart := if sd.text_content ≠ "" then [takeStr 500 sd.text_content] else []
  joinBar (base ++ typed ++ summaryPart ++ contentPart)

/-- `_store_in_tidb` document-id generation (lines 253-258): the report
type, the patient name and the **current wall-clock time** formatted to
the second, joined with underscores and with spaces replaced.  (The
patient dict built by `extract_patient_info` always carries a `name` key,
so the `"unknown"` dict default never fires.) -/
def documentId (sd : StructuredData) (timestamp : String) : String :=
  spacesToUnderscores (sd.report_type ++ "_" ++ sd.patient_name ++ "_" ++ timestamp)

/-- The three report types stored by `_store_in_tidb`; every other type is
skipped ("Only store medical reports in TiDB, skip non-medical PDFs"). -/
def medicalTypes : List String := ["cbc", "pet_ct", "biopsy"]

/-- Whether `_store_in_tidb` executes the `INSERT ... ON DUPLICATE KEY
UPDATE` for a document: only for medical report types, and only when an
embedding is available. -/
def storesDocument (report_type : String) (hasEmbedding : Bool) : Bool :=
  medicalTypes.contains report_type && hasEmbedding

/-- The `medical_documents` store restricted to the upsert contract: a list
of `(id, content)` rows, `INSERT ... ON DUPLICATE KEY UPDATE` replacing the
row with the same id and inserting a fresh row otherwise. -/
def upsertRow (table : List (String × String)) (id content : String) :
    List (String × String) :=
  if table.any (fun r => r.1 = id) then
    table.map (fun r => if r.1 = id then (id, content) else r)
  else table ++ [(id, content)]

/-- The analyzer invocation of `process_single_pdf`: skipped exactly when
the classified type is `unknown`. -/
def pipelineAnalysis (analyze : String → String → Analysis) (sd : StructuredData) :
    Option Analysis :=
  if sd.report_type ≠ "unknown" then some (analyze sd.report_type sd.text_content) else none

/-- The searchable text the orchestrator embeds and stores. -/
def pipelineSearchable (analyze : String → String → Analysis) (numStr : ℚ → String)
    (sd : StructuredData) : String :=
  searchableText numStr sd ((pipelineAnalysis analyze sd).getD emptyAnalysis)

/-- The embedding generated for a document by `process_single_pdf`
(`OpenAIService.embed` of the searchable text; the mock path never
fails, so an embedding is always produced). -/
noncomputable def pipelineEmbedding (analyze : String → String → Analysis)
    (numStr : ℚ → String) (sd : StructuredData) : List ℝ :=
  mockEmbedding (pipelineSearchable analyze numStr sd)

/-- Observable outcome of `process_single_pdf` for one document. -/
structure PipelineOutcome where
  analysis : Option Analysis
  searchable : String
  stored : Bool
  docId : String
deriving DecidableEq

/-- `process_single_pdf` followed by `_store_in_tidb`, at wall-clock
timestamp `now`. -/
def runPipeline (analyze : String → String → Analysis) (numStr : ℚ → String)
    (sd : StructuredData) (now : String) : PipelineOutcome :=
  ⟨pipelineAnalysis analyze sd,
   pipelineSearchable analyze numStr sd,
   storesDocument sd.report_type true,
   documentId sd now⟩

/-! ## Content enricher (`VectorDatabaseService._enhance_medical_content`) -/

/-- Python `", ".join`. -/
def joinComma : List String → String
  | [] => ""
  | [p] => p
  | p :: rest => p ++ ", " ++ joinComma rest

/-- The fixed medical vocabulary of `_extract_medical_keywords`, in the
order the Python set literal lists it (with the duplicate "grade"
removed).  Python iterates a `set`, whose order is unspecified; the spec
itself notes downstream code must not depend on keyword order, and no
theorem below does. -/
def medicalTerms : List String :=
  ["hemoglobin", "hgb", "wbc", "rbc", "platelets", "hematocrit", "mcv", "mch", "mchc",
   "neutrophils", "lymphocytes", "monocytes", "eosinophils", "basophils", "anc",
   "tumor", "mass", "lesion", "neoplasm", "carcinoma", "adenocarcinoma", "sarcoma",
   "metastasis", "malignant", "benign", "oncology", "cancer", "staging", "grade",
   "ct", "mri", "pet", "scan", "imaging", "radiology", "fdg", "suvmax", "uptake",
   "contrast", "enhancement", "nodule", "opacity",
   "biopsy", "histopathology", "cytology", "ihc", "immunohistochemistry",
   "er", "pr", "her2", "ki67", "gleason", "nottingham",
   "chemotherapy", "radiation", "surgery", "treatment", "therapy", "protocol",
   "response", "remission", "progression", "stable",
   "breast", "lung", "prostate", "colon", "liver", "kidney", "brain", "bone",
   "lymph", "node", "abdomen", "pelvis", "chest", "thorax"]

/-- `_extract_medical_keywords`: vocabulary terms occurring as substrings
of the lowercased content, capped at 10. -/
def extractMedicalKeywords (content : String) : List String :=
  (medicalTerms.filter (fun t => strContains (pyLower content) t)).take 10

/-- The metadata dict passed to `generate_medical_embedding` by
`store_medical_document_with_embedding` / `semantic_search` (`none` models
both an absent key and a `None` value). -/
structure EmbedMeta where
  report_type : Option String
  patient_name : Option String
  patient_id : Option String
  source : String
  timestamp : Option String

/-- The `type_context` lookup table of `_enhance_medical_content`. -/
def typeContext (ty : String) : Option String :=
  if ty = "blood_test" then some "Blood Test Laboratory Report - CBC, Hematology, Chemistry"
  else if ty = "cbc" then some "Complete Blood Count - White Blood Cells, Red Blood Cells, Platelets, Hemoglobin"
  else if ty = "pet_ct" then some "PET/CT Imaging - Oncology Scan, FDG Uptake, Tumor Detection, Staging"
  else if ty = "biopsy" then some "Histopathology Biopsy - Tissue Analysis, Cancer Diagnosis, Grading"
  else if ty = "radiology" then some "Medical Imaging - CT, MRI, X-ray, Ultrasound Findings"
  else if ty = "pathology" then some "Pathology Report - Microscopic Analysis, Diagnosis, Staging"
  else none

/-- `VectorDatabaseService._enhance_medical_content`. -/
def enhanceMedicalContent (content : String) (m : EmbedMeta) : String :=
  let typePart :=
    match m.report_type with
    | some ty =>
      match typeContext ty with
      | some ctx => ["REPORT TYPE: " ++ ctx]
      | none => []
    | none => []
  let patientPart :=
    match m.patient_name with
    | some nm => if nm ≠ "" then ["PATIENT: " ++ nm] else []
    | none => []
  let datePart :=
    match m.timestamp with
    | some ts => ["DATE: " ++ ts]
    | none => []
  let kws := extractMedicalKeywords content
  let termsPart := if kws ≠ [] then ["MEDICAL TERMS: " ++ joinComma kws] else []
  joinBar (["MEDICAL REPORT:"] ++ typePart ++ patientPart ++ datePart ++
    ["CONTENT: " ++ content] ++ termsPart)

/-! ## Claims C1, C2, C4 -/

/-- A CBC document of patient Jane Doe, as parsed structured data. -/
def sdJaneCbc : StructuredData :=
  ⟨"cbc", "Jane Doe", "P1", "111", "TLC 3650", "report.pdf"⟩

/-- C1: re-processing the same source does NOT produce the same document
id: `_store_in_tidb` embeds the current wall-clock second in the id, so two
runs on identical input one second apart yield different ids, and the
`ON DUPLICATE KEY UPDATE` upsert inserts a second row instead of
overwriting the first. -/
theorem c1_rerun_same_source_duplicates_store :
    documentId sdJaneCbc "20250101_120000" ≠ documentId sdJaneCbc "20250101_120001" ∧
      (upsertRow (upsertRow [] (documentId sdJaneCbc "20250101_120000") "content")
        (documentId sdJaneCbc "20250101_120001") "content").length = 2 := by
  constructor
  · decide
  · decide

/-- C2 (amended): the generated embedding is a function of the report
type, the patient NAME, the analysis result and the text content only —
it does not depend on the patient id, contact, or source metadata; and the
vector-service content enrichment likewise ignores `patient_id` and
`source`.  (The patient NAME, by contrast, does enter both enriched texts,
see the counterexample.) -/
theorem c2_embedding_independent_of_patient_id
    (analyze : String → String → Analysis) (numStr : ℚ → String)
    (ty nm txt : String) (id1 id2 ct1 ct2 sf1 sf2 : String)
    (content : String) (rt pn ts : Option String) (pid1 pid2 : Option String)
    (src1 src2 : String) :
    pipelineEmbedding analyze numStr ⟨ty, nm, id1, ct1, txt, sf1⟩ =
      pipelineEmbedding analyze numStr ⟨ty, nm, id2, ct2, txt, sf2⟩ ∧
    enhanceMedicalContent content ⟨rt, pn, pid1, src1, ts⟩ =
      enhanceMedicalContent content ⟨rt, pn, pid2, src2, ts⟩ :=
  ⟨rfl, rfl⟩

/-- An unknown-type document of patient Alice. -/
def sdAlice : StructuredData := ⟨"unknown", "Alice", "PID-1", "111", "x", "r.pdf"⟩

/-- The same document with only the patient name changed to Bob. -/
def sdBob : StructuredData := ⟨"unknown", "Bob", "PID-1", "111", "x", "r.pdf"⟩

set_option maxRecDepth 4000 in
/-- C2 counterexample: two pipeline runs whose inputs differ only in the
patient name produce different embeddings, because
`_create_searchable_text` prefixes `Patient: {name}` to the embedded text.
The two accumulated vectors differ at index 656 (the bucket of the token
"alice"). -/
theorem c2_counterexample_patient_name_changes_embedding :
    pipelineEmbedding (fun _ _ => emptyAnalysis) (fun _ => "") sdAlice ≠
      pipelineEmbedding (fun _ _ => emptyAnalysis) (fun _ => "") sdBob := by
  unfold pipelineEmbedding
  apply mockEmbedding_ne_of_entry _ _ 656 (by norm_num [embedDim])
  · decide
  · decide

/-- An unknown-type document (no classifier marker matched). -/
def sdUnknown : StructuredData :=
  ⟨"unknown", "Jane Doe", "P1", "111", "some scanned text", "scan.pdf"⟩

/-- C4 (amended): for a document whose classified report type is
`unknown`, the pipeline skips the type-specific analysis AND skips the
store upsert (`_store_in_tidb` only stores the types cbc/pet_ct/biopsy);
an embedding of the fixed dimension 1536 is still generated. -/
theorem c4_unknown_type_embedded_but_not_stored
    (analyze : String → String → Analysis) (numStr : ℚ → String)
    (sd : StructuredData) (now : String) (h : sd.report_type = "unknown") :
    (runPipeline analyze numStr sd now).analysis = none ∧
      (runPipeline analyze numStr sd now).stored = false ∧
      (pipelineEmbedding analyze numStr sd).length = 1536 := by
  refine ⟨?_, ?_, ?_⟩
  · simp [runPipeline, pipelineAnalysis, h]
  · simp [runPipeline, storesDocument, medicalTypes, h]
  · exact mockEmbedding_length _

/-- C4 witness: a concrete unknown-type document is not stored, its
analysis is skipped, and its embedding is still generated. -/
theorem c4_witness_unknown_doc :
    (runPipeline (fun _ _ => emptyAnalysis) (fun _ => "") sdUnknown "20250101_120000").analysis = none ∧
      (runPipeline (fun _ _ => emptyAnalysis) (fun _ => "") sdUnknown "20250101_120000").stored = false ∧
      (pipelineEmbedding (fun _ _ => emptyAnalysis) (fun _ => "") sdUnknown).length = 1536 :=
  c4_unknown_type_embedded_but_not_stored (fun _ _ => emptyAnalysis) (fun _ => "")
    sdUnknown "20250101_120000" rfl

/-- C4 counterexample: the claim that the pipeline "performs the store
upsert" for an unknown-type document is false — `_store_in_tidb` skips
every type outside cbc/pet_ct/biopsy, even with an embedding available. -/
theorem c4_counterexample_unknown_not_stored :
    (runPipeline (fun _ _ => emptyAnalysis) (fun _ => "") sdUnknown "20250101_120000").stored
      = false ∧ storesDocument "unknown" true = false := by
  constructor
  · decide
  · decide

/-! ## Vector store queries (`VectorDatabaseService`)

The TiDB store is an external collaborator: its cosine-distance
computation is abstracted as a `dist` function from query content and
stored document to the distance the store would report, and `ORDER BY
... ASC LIMIT n` is modelled by a deterministic insertion sort plus
`take`.  All caller-side logic (filters, threshold, same-patient
exclusion, result capping) is modelled from the source. -/

/-- A row of the `medical_documents` table as read by the queries. -/
structure StoredDoc where
  id : String
  content : String
  type : String
  patient_name : String
  patient_id : String
  source : String
  timestamp : Int
deriving DecidableEq, Repr

/-- A result dict built by `semantic_search`. -/
structure SearchResult where
  id : String
  content : String
  type : String
  patient_name : String
  patient_id : String
  source : String
  timestamp : Int
  similarity : ℚ
deriving DecidableEq, Repr

/-- Insert into a sorted list (ties keep existing order, like a stable
sort of the store's rows). -/
def insertBy {α : Type} (le : α → α → Bool) (x : α) : List α → List α
  | [] => [x]
  | y :: rest => if le x y then x :: y :: rest else y :: insertBy le x rest

/-- Insertion sort by a boolean comparison. -/
def sortBy {α : Type} (le : α → α → Bool) : List α → List α
  | [] => []
  | x :: rest => insertBy le x (sortBy le rest)

/-- SQL `patient_name LIKE %p%`. -/
def likeContains (hay pat : String) : Bool := strContains hay pat

/-- `VectorDatabaseService.semantic_search`: filter by optional patient
substring and exact type, order by ascending distance, take `limit` rows,
convert distance to similarity `1 - distance`, and keep only rows whose
similarity reaches the threshold, reporting `round(similarity, 4)`. -/
def semanticSearch (dist : StoredDoc → ℚ) (store : List StoredDoc) (limit : Nat)
    (patientFilter : Option String) (typeFilter : Option String)
    (threshold : ℚ) : List SearchResult :=
  let filtered := store.filter (fun d =>
    (match patientFilter with
     | some pf => likeContains d.patient_name pf
     | none => true) &&
    (match typeFilter with
     | some t => d.type == t
     | none => true))
  let ranked := (sortBy (fun a b => decide (dist a ≤ dist b)) filtered).take limit
  ranked.filterMap (fun d =>
    let sim := 1 - dist d
    if threshold ≤ sim then
      some ⟨d.id, d.content, d.type, d.patient_name, d.patient_id, d.source,
        d.timestamp, round4 sim⟩
    else none)

/-- `get_patient_medical_timeline`: rows of the patient newer than
`now - daysBack`, ordered by descending timestamp. -/
def patientTimeline (store : List StoredDoc) (now : Int) (p : String)
    (daysBack : Int) : List StoredDoc :=
  sortBy (fun a b => decide (b.timestamp ≤ a.timestamp))
    (store.filter (fun d => d.patient_name == p && decide (now - daysBack ≤ d.timestamp)))

/-- The same-patient exclusion / capping loop of `find_similar_cases`. -/
def simFoldStep (p : String) (limit : Nat) (acc : List SearchResult)
    (r : SearchResult) : List SearchResult :=
  if r.patient_name ≠ p ∧ acc.length < limit then acc ++ [r] else acc

/-- `VectorDatabaseService.find_similar_cases`: take the patient's most
recent document (90-day window) as the query, search with `limit * 2` and
the default threshold 0.7, then drop same-patient results and cap at
`limit`. -/
def findSimilarCases (dist : String → StoredDoc → ℚ) (store : List StoredDoc)
    (now : Int) (p : String) (ty : Option String) (limit : Nat) :
    List SearchResult :=
  match patientTimeline store now p 90 with
  | [] => []
  | ref :: _ =>
    (semanticSearch (dist ref.content) store (limit * 2) none ty (7/10)).foldl
      (simFoldStep p limit) []

/-! ### Facts about the exclusion/capping fold -/

theorem simFold_patient_ne (p : String) (limit : Nat) (rs : List SearchResult)
    (acc : List SearchResult) (hacc : ∀ x ∈ acc, x.patient_name ≠ p) :
    ∀ r ∈ rs.foldl (simFoldStep p limit) acc, r.patient_name ≠ p := by
  induction rs generalizing acc with
  | nil => exact hacc
  | cons x rest ih =>
    intro r hr
    refine ih (simFoldStep p limit acc x) ?_ r hr
    intro y hy
    unfold simFoldStep at hy
    by_cases hc : x.patient_name ≠ p ∧ acc.length < limit
    · rw [if_pos hc] at hy
      rcases List.mem_append.1 hy with hy' | hy'
      · exact hacc y hy'
      · rw [List.mem_singleton.1 hy']
        exact hc.1
    · rw [if_neg hc] at hy
      exact hacc y hy

theorem simFold_length_le (p : String) (limit : Nat) (rs : List SearchResult)
    (acc : List SearchResult) (hacc : acc.length ≤ limit) :
    (rs.foldl (simFoldStep p limit) acc).length ≤ limit := by
  induction rs generalizing acc with
  | nil => exact hacc
  | cons x rest ih =>
    refine ih (simFoldStep p limit acc x) ?_
    unfold simFoldStep
    by_cases hc : x.patient_name ≠ p ∧ acc.length < limit
    · rw [if_pos hc]
      simpa using hc.2
    · rw [if_neg hc]
      exact hacc

theorem simFold_subset (p : String) (limit : Nat) (rs : List SearchResult)
    (acc : List SearchResult) :
    ∀ r ∈ rs.foldl (simFoldStep p limit) acc, r ∈ acc ∨ r ∈ rs := by
  induction rs generalizing acc with
  | nil => intro r hr; exact Or.inl hr
  | cons x rest ih =>
    intro r hr
    rcases ih (simFoldStep p limit acc x) r hr with h | h
    · unfold simFoldStep at h
      by_cases hc : x.patient_name ≠ p ∧ acc.length < limit
      · rw [if_pos hc] at h
        rcases List.mem_append.1 h with h' | h'
        · exact Or.inl h'
        · exact Or.inr (by rw [List.mem_singleton.1 h']; exact List.mem_cons_self x rest)
      · rw [if_neg hc] at h
        exact Or.inl h
    · exact Or.inr (List.mem_cons_of_mem x h)

/-- Every result of `semantic_search` passed the similarity threshold,
and the reported rounded similarity is still at least any threshold `t`
with `t * 10000` integral. -/
theorem semanticSearch_similarity_ge (dist : StoredDoc → ℚ) (store : List StoredDoc)
    (limit : Nat) (pf tf : Option String) (t : ℚ) (n : ℤ) (hn : (n : ℚ) = t * 10000) :
    ∀ r ∈ semanticSearch dist store limit pf tf t, t ≤ r.similarity := by
  intro r hr
  unfold semanticSearch at hr
  rcases List.mem_filterMap.1 hr with ⟨d, _, hfd⟩
  by_cases hth : t ≤ 1 - dist d
  · rw [if_pos hth] at hfd
    have hsim : r.similarity = round4 (1 - dist d) := by
      have h' := Option.some.inj hfd
      rw [← h']
    rw [hsim]
    exact round4_ge_of_ge _ t n hn hth
  · rw [if_neg hth] at hfd
    exact absurd hfd (by simp)

/-- C3: every case returned by `find_similar_cases(p, ...)` belongs to a
patient other than `p` — the same-patient exclusion is unconditional,
holding for every store content and every distance function the external
store could report (in particular even when a document of `p` is the
nearest neighbour of the query). -/
theorem c3_similar_cases_exclude_same_patient
    (dist : String → StoredDoc → ℚ) (store : List StoredDoc) (now : Int)
    (p : String) (ty : Option String) (limit : Nat) (r : SearchResult)
    (hr : r ∈ findSimilarCases dist store now p ty limit) :
    r.patient_name ≠ p := by
  unfold findSimilarCases at hr
  rcases htl : patientTimeline store now p 90 with _ | ⟨ref, rest⟩
  · rw [htl] at hr
    simp at hr
  · rw [htl] at hr
    exact simFold_patient_ne p limit _ [] (by simp) r hr

/-- C10: every document returned by `find_similar_cases` has (rounded)
similarity at least the default threshold 0.7 applied inside
`semantic_search` (as `1 - cosine distance`), and the returned list has at
most `limit` entries — so fewer than `limit` results may come back even
when more other-patient documents exist. -/
theorem c10_similarity_threshold_and_result_cap
    (dist : String → StoredDoc → ℚ) (store : List StoredDoc) (now : Int)
    (p : String) (ty : Option String) (limit : Nat) :
    (∀ r ∈ findSimilarCases dist store now p ty limit, 7/10 ≤ r.similarity) ∧
      (findSimilarCases dist store now p ty limit).length ≤ limit := by
  unfold findSimilarCases
  rcases htl : patientTimeline store now p 90 with _ | ⟨ref, rest⟩
  · constructor
    · intro r hr
      simp at hr
    · simp
  · constructor
    · intro r hr
      rcases simFold_subset p limit _ [] r hr with h | h
      · simp at h
      · exact semanticSearch_similarity_ge _ store (limit * 2) none ty (7/10) 7000
          (by norm_num) r h
    · exact simFold_length_le p limit _ [] (by simp)

/-! ### A concrete store scenario: Jane's own document is the nearest
neighbour of the query, Bob's is second. -/

theorem round4_int_mul (x : ℚ) (n : ℤ) (h : x * 10000 = (n : ℚ)) :
    round4 x = (n : ℚ) / 10000 := by
  unfold round4
  rw [h, pyRound_intCast]

/-- A stored CBC document of patient Jane Doe (distance 0 to the query). -/
def docJane : StoredDoc := ⟨"d1", "jane doc content", "cbc", "Jane Doe", "P1", "email_pdf", 100⟩

/-- A stored CBC document of patient Bob (distance 1/10 to the query). -/
def docBob : StoredDoc := ⟨"d2", "bob doc content", "cbc", "Bob", "P2", "email_pdf", 90⟩

def demoStore : List StoredDoc := [docJane, docBob]

/-- The external store's cosine distances for this scenario: Jane's own
document is the top-ranked nearest neighbour. -/
def demoDist (_q : String) (d : StoredDoc) : ℚ := if d.id = "d1" then 0 else 1/10

/-- The search result for Jane's own document. -/
def rJane : SearchResult :=
  ⟨"d1", "jane doc content", "cbc", "Jane Doe", "P1", "email_pdf", 100, round4 1⟩

/-- The search result for Bob's document. -/
def rBob : SearchResult :=
  ⟨"d2", "bob doc content", "cbc", "Bob", "P2", "email_pdf", 90, round4 (1 - 1/10)⟩

theorem demo_timeline : patientTimeline demoStore 100 "Jane Doe" 90 = [docJane] := by
  decide

theorem demo_dJ : demoDist "jane doc content" docJane = 0 := rfl

theorem demo_dB : demoDist "jane doc content" docBob = 1/10 := rfl

/-- In the scenario, `semantic_search` ranks Jane's own document first. -/
theorem demo_search :
    semanticSearch (demoDist "jane doc content") demoStore 10 none none (7/10) =
      [rJane, rBob] := by
  have hcmp : decide (demoDist "jane doc content" docJane ≤
      demoDist "jane doc content" docBob) = true := by
    rw [demo_dJ, demo_dB]
    exact decide_eq_true (by norm_num)
  unfold semanticSearch demoStore
  simp only [List.filter, Bool.and_true, Bool.true_and]
  simp only [sortBy, insertBy, hcmp, if_true, List.take, List.filterMap]
  rw [demo_dJ, demo_dB]
  norm_num [rJane, rBob, docJane, docBob]

/-- In the scenario, `find_similar_cases("Jane Doe")` returns exactly
Bob's document: Jane's own top-ranked document is excluded. -/
theorem demo_fsc :
    findSimilarCases demoDist demoStore 100 "Jane Doe" none 5 = [rBob] := by
  unfold findSimilarCases
  rw [demo_timeline]
  have h52 : (5:Nat) * 2 = 10 := rfl
  simp only [docJane, h52]
  rw [demo_search]
  simp [List.foldl, simFoldStep, rJane, rBob]

/-- C3 witness: in the scenario where Jane's own document is the nearest
neighbour, the single returned case belongs to Bob, not Jane. -/
theorem c3_witness_jane_excluded : rBob.patient_name ≠ "Jane Doe" :=
  c3_similar_cases_exclude_same_patient demoDist demoStore 100 "Jane Doe" none 5 rBob
    (by rw [demo_fsc]; exact List.mem_singleton.2 rfl)

/-- C10 witness: in the same scenario the returned case passes the 0.7
similarity threshold and the result list respects the cap. -/
theorem c10_witness_threshold_and_cap :
    (7:ℚ)/10 ≤ rBob.similarity ∧
      (findSimilarCases demoDist demoStore 100 "Jane Doe" none 5).length ≤ 5 :=
  ⟨(c10_similarity_threshold_and_result_cap demoDist demoStore 100 "Jane Doe" none 5).1 rBob
      (by rw [demo_fsc]; exact List.mem_singleton.2 rfl),
   (c10_similarity_threshold_and_result_cap demoDist demoStore 100 "Jane Doe" none 5).2⟩

/-! ## Text normalizer (`PDFParsingService.normalize_text`)

The five substitutions are applied in the source's order: strip `\r`,
collapse `[ \t]+` to one space, collapse `\n{2,}` to two newlines, delete
`Page No: .*?\n` matches, delete `Report Released on *:.*?\n` matches,
then `strip()`.  The two deletion passes are modelled by character-level
scanning machines that mirror `re.sub`'s left-to-right, non-overlapping
replacement; since `.` does not match a newline, each match runs from the
literal through the first following newline, and a match exists at a
position exactly when the literal is a prefix there and a newline occurs
later. -/

/-- `text.replace("\r", "")`. -/
def stripCR (l : List Char) : List Char := l.filter (fun c => c ≠ '\r')

def isSpTab (c : Char) : Bool := c = ' ' || c = '\t'

/-- `re.sub(r"[ \t]+", " ", text)`: the flag records whether we are inside
a space/tab run whose single replacement space was already emitted. -/
def spC : List Char → Bool → List Char
  | [], _ => []
  | c :: rest, inRun =>
    if isSpTab c then
      if inRun then spC rest true else ' ' :: spC rest true
    else c :: spC rest false

/-- `re.sub(r"\n{2,}", "\n\n", text)`: `k` counts the newlines already
emitted in the current newline run (capped at 2). -/
def nlC : List Char → Nat → List Char
  | [], _ => []
  | c :: rest, k =>
    if c = '\n' then
      if k < 2 then '\n' :: nlC rest (k + 1) else nlC rest k
    else c :: nlC rest 0

/-- The literal of the page-number boilerplate pattern. -/
def pageLit : List Char := "Page No: ".toList

/-- Whether `re.search(r"Page No: .*?\n", l)` matches at the start of `l`:
the literal is a prefix and a newline occurs after it. -/
def pageCond (l : List Char) : Bool :=
  hasPfx pageLit l && (l.drop 9).any (fun c => c = '\n')

/-- `re.sub(r"Page No: .*?\n", "", text)` as a scanning machine.  Mode
`none` scans for a match; `some (n+1)` skips the remaining `n+1` literal
characters; `some 0` skips the `.*?` part through the first newline, then
returns to scanning (matches are non-overlapping and scanning resumes
after the replaced region, as `re.sub` does). -/
def rpGo : Option Nat → List Char → List Char
  | _, [] => []
  | none, c :: rest =>
    if pageCond (c :: rest) then rpGo (some 8) rest else c :: rpGo none rest
  | some (n + 1), _ :: rest => rpGo (some n) rest
  | some 0, c :: rest => if c = '\n' then rpGo none rest else rpGo (some 0) rest

/-- The literal of the release-timestamp boilerplate pattern. -/
def reportLit : List Char := "Report Released on".toList

/-- Whether `re.search(r"Report Released on *:.*?\n", l)` matches at the
start of `l`: the literal, then zero or more spaces, then a colon, then a
newline somewhere after. -/
def reportCond (l : List Char) : Bool :=
  hasPfx reportLit l &&
    (let a := (l.drop 18).dropWhile (fun c => c = ' ')
     a.head? = some ':' && (a.drop 1).any (fun c => c = '\n'))

/-- Skip modes of the release-timestamp deletion machine. -/
inductive RRSkip where
  | lit : Nat → RRSkip
  | sp : RRSkip
  | toNl : RRSkip
deriving DecidableEq

/-- `re.sub(r"Report Released on *:.*?\n", "", text)` as a scanning
machine: skip the remaining literal characters, then the run of spaces and
the colon, then through the first newline. -/
def rrGo : Option RRSkip → List Char → List Char
  | _, [] => []
  | none, c :: rest =>
    if reportCond (c :: rest) then rrGo (some (.lit 17)) rest else c :: rrGo none rest
  | some (.lit n), _ :: rest =>
    if n ≤ 1 then rrGo (some .sp) rest else rrGo (some (.lit (n - 1))) rest
  | some .sp, c :: rest =>
    if c = ' ' then rrGo (some .sp) rest else rrGo (some .toNl) rest
  | some .toNl, c :: rest => if c = '\n' then rrGo none rest else rrGo (some .toNl) rest

/-- `text.strip()` — leading whitespace removal. -/
def dropLead (l : List Char) : List Char := l.dropWhile pyIsSpace

/-- `text.strip()` — trailing whitespace removal. -/
def dropTrail (l : List Char) : List Char := (l.reverse.dropWhile pyIsSpace).reverse

/-- `text.strip()`. -/
def pyStrip (l : List Char) : List Char := dropTrail (dropLead l)

/-- The whitespace-normalisation prefix of `normalize_text` (before the
two boilerplate deletions and the final strip). -/
def wsNormalized (s : String) : List Char := nlC (spC (stripCR s.toList) false) 0

/-- `PDFParsingService.normalize_text`. -/
def normalizeText (s : String) : String :=
  (pyStrip (rrGo none (rpGo none (wsNormalized s)))).asString

/-- C9 counterexample: `normalize_text` is not idempotent.  Removing the
`Page No:` line happens after newline collapsing, so it joins two blank
lines into a triple newline that only a second pass collapses:
the input normalizes to "a\n\n\nb", which normalizes again to "a\n\nb". -/
theorem c9_counterexample_page_removal_breaks_idempotence :
    normalizeText (normalizeText "a\n\nPage No: 1\n\nb") ≠
      normalizeText "a\n\nPage No: 1\n\nb" := by
  decide

/-! ### Invariants of the whitespace-normalised text -/

/-- No two adjacent space/tab characters. -/
def noSpTabPair : List Char → Prop
  | a :: b :: rest => ¬(isSpTab a = true ∧ isSpTab b = true) ∧ noSpTabPair (b :: rest)
  | _ => True

/-- No three adjacent newlines. -/
def noTripleNl : List Char → Prop
  | a :: b :: c :: rest => ¬(a = '\n' ∧ b = '\n' ∧ c = '\n') ∧ noTripleNl (b :: c :: rest)
  | _ => True

/-- The list starts with two newlines. -/
def startsTwoNl : List Char → Prop
  | a :: b :: _ => a = '\n' ∧ b = '\n'
  | _ => False

theorem noSpTabPair_nil : noSpTabPair [] := trivial

theorem noSpTabPair_single (c : Char) : noSpTabPair [c] := trivial

theorem noSpTabPair_tail (c : Char) (l : List Char)
    (h : noSpTabPair (c :: l)) : noSpTabPair l := by
  cases l with
  | nil => trivial
  | cons d r => exact h.2

theorem noSpTabPair_cons_pair (c d : Char) (l : List Char)
    (h : noSpTabPair (c :: d :: l)) : ¬(isSpTab c = true ∧ isSpTab d = true) :=
  h.1

theorem noSpTabPair_cons_of (c : Char) (l : List Char)
    (hl : noSpTabPair l)
    (hd : ∀ d, l.head? = some d → ¬(isSpTab c = true ∧ isSpTab d = true)) :
    noSpTabPair (c :: l) := by
  cases l with
  | nil => trivial
  | cons d r => exact ⟨hd d rfl, hl⟩

theorem noTripleNl_nil : noTripleNl [] := trivial

theorem noTripleNl_tail (c : Char) (l : List Char)
    (h : noTripleNl (c :: l)) : noTripleNl l := by
  cases l with
  | nil => trivial
  | cons d r =>
    cases r with
    | nil => trivial
    | cons e r' => exact h.2

theorem noTripleNl_cons_of (c : Char) (l : List Char)
    (hl : noTripleNl l)
    (hs : c = '\n' → ¬ startsTwoNl l) :
    noTripleNl (c :: l) := by
  cases l with
  | nil => trivial
  | cons d r =>
    cases r with
    | nil => trivial
    | cons e r' =>
      refine ⟨?_, hl⟩
      rintro ⟨hc, hd, he⟩
      exact hs hc ⟨hd, he⟩

theorem noTripleNl_cons_startsTwo (c : Char) (l : List Char)
    (h : noTripleNl (c :: l)) (hc : c = '\n') : ¬ startsTwoNl l := by
  cases l with
  | nil => exact fun h' => h'
  | cons d r =>
    cases r with
    | nil => exact fun h' => h'
    | cons e r' =>
      rintro ⟨hd, he⟩
      exact h.1 ⟨hc, hd, he⟩

theorem noSpTabPair_append_right (a b : List Char)
    (h : noSpTabPair (a ++ b)) : noSpTabPair b := by
  induction a with
  | nil => exact h
  | cons c a' ih => exact ih (noSpTabPair_tail c (a' ++ b) h)

theorem noSpTabPair_append_left (a b : List Char)
    (h : noSpTabPair (a ++ b)) : noSpTabPair a := by
  induction a with
  | nil => trivial
  | cons c a' ih =>
    cases a' with
    | nil => trivial
    | cons d r =>
      exact ⟨h.1, ih h.2⟩

theorem noTripleNl_append_right (a b : List Char)
    (h : noTripleNl (a ++ b)) : noTripleNl b := by
  induction a with
  | nil => exact h
  | cons c a' ih => exact ih (noTripleNl_tail c (a' ++ b) h)

theorem noTripleNl_append_left (a b : List Char)
    (h : noTripleNl (a ++ b)) : noTripleNl a := by
  induction a with
  | nil => trivial
  | cons c a' ih =>
    cases a' with
    | nil => trivial
    | cons d r =>
      cases r with
      | nil => trivial
      | cons e r' =>
        exact ⟨h.1, ih h.2⟩

/-! ### Space collapsing -/

theorem spC_cons (d : Char) (rest : List Char) (b : Bool) :
    spC (d :: rest) b =
      if isSpTab d then (if b then spC rest true else ' ' :: spC rest true)
      else d :: spC rest false := rfl

theorem mem_spC (l : List Char) (b : Bool) (c : Char) (h : c ∈ spC l b) :
    c ∈ l ∨ c = ' ' := by
  induction l generalizing b with
  | nil => simp [spC] at h
  | cons d rest ih =>
    rw [spC_cons] at h
    by_cases hd : isSpTab d
    · rw [if_pos hd] at h
      cases b with
      | true =>
        rw [if_pos rfl] at h
        rcases ih true h with h' | h'
        · exact Or.inl (List.mem_cons_of_mem d h')
        · exact Or.inr h'
      | false =>
        rw [if_neg (by simp)] at h
        rcases List.mem_cons.1 h with h' | h'
        · exact Or.inr h'
        · rcases ih true h' with h'' | h''
          · exact Or.inl (List.mem_cons_of_mem d h'')
          · exact Or.inr h''
    · rw [if_neg hd] at h
      rcases List.mem_cons.1 h with h' | h'
      · exact Or.inl (h' ▸ List.mem_cons_self d rest)
      · rcases ih false h' with h'' | h''
        · exact Or.inl (List.mem_cons_of_mem d h'')
        · exact Or.inr h''

/-- The space collapser's output has no tabs, no adjacent space pairs, and
in in-run mode starts with a non-space. -/
theorem spC_inv (l : List Char) (b : Bool) :
    '\t' ∉ spC l b ∧ noSpTabPair (spC l b) ∧
      (b = true → ∀ c, (spC l b).head? = some c → isSpTab c = false) := by
  induction l generalizing b with
  | nil => refine ⟨by simp [spC], trivial, by intro _ c hc; simp [spC] at hc⟩
  | cons d rest ih =>
    by_cases hd : isSpTab d
    · cases b with
      | true =>
        have heq : spC (d :: rest) true = spC rest true := by
          rw [spC_cons, if_pos hd, if_pos rfl]
        rw [heq]
        exact ⟨(ih true).1, (ih true).2.1, fun _ => (ih true).2.2 rfl⟩
      | false =>
        have heq : spC (d :: rest) false = ' ' :: spC rest true := by
          rw [spC_cons, if_pos hd, if_neg (by simp)]
        rw [heq]
        refine ⟨?_, ?_, ?_⟩
        · intro hmem
          rcases List.mem_cons.1 hmem with h' | h'
          · exact absurd h' (by decide)
          · exact (ih true).1 h'
        · apply noSpTabPair_cons_of _ _ (ih true).2.1
          intro e he
          intro he2
          have := (ih true).2.2 rfl e he
          rw [this] at he2
          exact Bool.false_ne_true he2.2
        · intro hfalse
          exact absurd hfalse (by simp)
    · have heq : spC (d :: rest) b = d :: spC rest false := by
        rw [spC_cons, if_neg hd]
      rw [heq]
      refine ⟨?_, ?_, ?_⟩
      · intro hmem
        rcases List.mem_cons.1 hmem with h' | h'
        · apply hd
          rw [← h']
          decide
        · exact (ih false).1 h'
      · apply noSpTabPair_cons_of _ _ (ih false).2.1
        intro e _
        intro he2
        exact hd he2.1
      · intro _ c hc
        rw [List.head?_cons, Option.some.injEq] at hc
        rw [← hc]
        exact Bool.eq_false_iff.mpr hd

/-- The space collapser is the identity on text with no tabs and no
adjacent space pairs. -/
theorem spC_eq_self (l : List Char) (hT : '\t' ∉ l) (hP : noSpTabPair l) :
    spC l false = l ∧
      ((∀ c, l.head? = some c → isSpTab c = false) → spC l true = l) := by
  induction l with
  | nil => exact ⟨rfl, fun _ => rfl⟩
  | cons d rest ih =>
    have hT' : '\t' ∉ rest := fun h => hT (List.mem_cons_of_mem d h)
    have hP' : noSpTabPair rest := noSpTabPair_tail d rest hP
    have ihr := ih hT' hP'
    by_cases hd : isSpTab d
    · have hds : d = ' ' := by
        have hdt : d ≠ '\t' := fun h => hT (h ▸ List.mem_cons_self d rest)
        unfold isSpTab at hd
        rcases Bool.or_eq_true _ _ ▸ hd with h' | h'
        · exact of_decide_eq_true h'
        · exact absurd (of_decide_eq_true h') hdt
      have hrest_head : ∀ e, rest.head? = some e → isSpTab e = false := by
        intro e he
        cases rest with
        | nil => simp at he
        | cons f r =>
          rw [List.head?_cons, Option.some.injEq] at he
          subst he
          by_cases hef : isSpTab f
          · exact absurd ⟨hd, hef⟩ (noSpTabPair_cons_pair d f r hP)
          · exact Bool.eq_false_iff.mpr hef
      constructor
      · rw [spC_cons, if_pos hd, if_neg (by simp), ihr.2 hrest_head, hds]
      · intro hhead
        have := hhead d rfl
        rw [this] at hd
        exact absurd hd (by simp)
    · constructor
      · rw [spC_cons, if_neg hd, ihr.1]
      · intro _
        rw [spC_cons, if_neg hd, ihr.1]

/-! ### Newline collapsing -/

theorem nlC_cons (c : Char) (rest : List Char) (k : Nat) :
    nlC (c :: rest) k =
      if c = '\n' then (if k < 2 then '\n' :: nlC rest (k + 1) else nlC rest k)
      else c :: nlC rest 0 := rfl

theorem mem_nlC (l : List Char) (k : Nat) (c : Char) (h : c ∈ nlC l k) :
    c ∈ l ∨ c = '\n' := by
  induction l generalizing k with
  | nil => simp [nlC] at h
  | cons d rest ih =>
    rw [nlC_cons] at h
    by_cases hd : d = '\n'
    · rw [if_pos hd] at h
      by_cases hk : k < 2
      · rw [if_pos hk] at h
        rcases List.mem_cons.1 h with h' | h'
        · exact Or.inr h'
        · rcases ih (k + 1) h' with h'' | h''
          · exact Or.inl (List.mem_cons_of_mem d h'')
          · exact Or.inr h''
      · rw [if_neg hk] at h
        rcases ih k h with h'' | h''
        · exact Or.inl (List.mem_cons_of_mem d h'')
        · exact Or.inr h''
    · rw [if_neg hd] at h
      rcases List.mem_cons.1 h with h' | h'
      · exact Or.inl (h' ▸ List.mem_cons_self d rest)
      · rcases ih 0 h' with h'' | h''
        · exact Or.inl (List.mem_cons_of_mem d h'')
        · exact Or.inr h''

/-- With run counter 0 the collapser keeps the first character. -/
theorem nlC_head (l : List Char) : (nlC l 0).head? = l.head? := by
  cases l with
  | nil => rfl
  | cons d rest =>
    rw [nlC_cons]
    by_cases hd : d = '\n'
    · rw [if_pos hd, if_pos (by norm_num)]
      rw [hd]
      rfl
    · rw [if_neg hd]
      rfl

/-- The newline collapser's output has no newline triples; with one
newline already emitted it does not start with two more, and with two
emitted it does not start with one. -/
theorem nlC_inv (l : List Char) (k : Nat) :
    noTripleNl (nlC l k) ∧
      (k = 1 → ¬ startsTwoNl (nlC l k)) ∧
      (2 ≤ k → ∀ c, (nlC l k).head? = some c → c ≠ '\n') := by
  induction l generalizing k with
  | nil =>
    refine ⟨trivial, fun _ h => h, ?_⟩
    intro _ c hc
    simp [nlC] at hc
  | cons d rest ih =>
    by_cases hd : d = '\n'
    · by_cases hk : k < 2
      · have heq : nlC (d :: rest) k = '\n' :: nlC rest (k + 1) := by
          rw [nlC_cons, if_pos hd, if_pos hk]
        rw [heq]
        refine ⟨?_, ?_, ?_⟩
        · apply noTripleNl_cons_of _ _ (ih (k + 1)).1
          intro _
          rcases Nat.lt_or_ge k 1 with hk1 | hk1
          · -- k = 0, next counter 1
            have hk0 : k = 0 := by omega
            subst hk0
            exact (ih 1).2.1 rfl
          · -- k = 1, next counter 2: output of nlC rest 2 cannot start with \n
            have hk2 : k = 1 := by omega
            subst hk2
            intro hst
            cases hres : nlC rest 2 with
            | nil => rw [hres] at hst; exact hst
            | cons e r' =>
              rw [hres] at hst
              cases r' with
              | nil => exact hst
              | cons f r'' =>
                have := (ih 2).2.2 (by omega) e (by rw [hres]; rfl)
                exact this hst.1
        · intro hk1
          subst hk1
          intro hst
          cases hres : nlC rest 2 with
          | nil => rw [hres] at hst; exact hst.elim
          | cons e r' =>
            rw [hres] at hst
            exact (ih 2).2.2 (by omega) e (by rw [hres]; rfl) hst.2
        · intro hk2
          omega
      · have heq : nlC (d :: rest) k = nlC rest k := by
          rw [nlC_cons, if_pos hd, if_neg hk]
        rw [heq]
        exact ⟨(ih k).1, fun h1 => absurd h1 (by omega), (ih k).2.2⟩
    · have heq : nlC (d :: rest) k = d :: nlC rest 0 := by
        rw [nlC_cons, if_neg hd]
      rw [heq]
      refine ⟨?_, ?_, ?_⟩
      · apply noTripleNl_cons_of _ _ (ih 0).1
        intro hd'
        exact absurd hd' hd
      · intro _
        intro hst
        cases hres : nlC rest 0 with
        | nil => rw [hres] at hst; exact hst.elim
        | cons e r' =>
          rw [hres] at hst
          exact hd hst.1
      · intro _ c hc
        rw [List.head?_cons, Option.some.injEq] at hc
        rw [← hc]
        exact hd

theorem noSpTabPair_head_pair (d e : Char) (rest : List Char)
    (hP : noSpTabPair (d :: rest)) (he : rest.head? = some e) :
    ¬(isSpTab d = true ∧ isSpTab e = true) := by
  cases rest with
  | nil => simp at he
  | cons f r =>
    rw [List.head?_cons, Option.some.injEq] at he
    subst he
    exact noSpTabPair_cons_pair d f r hP

/-- Newline collapsing preserves the no-adjacent-spaces invariant: at
least one newline always remains between the characters surrounding a
collapsed run. -/
theorem nlC_preserves_pair (l : List Char) (k : Nat) (hP : noSpTabPair l) :
    noSpTabPair (nlC l k) := by
  induction l generalizing k with
  | nil => trivial
  | cons d rest ih =>
    have hP' : noSpTabPair rest := noSpTabPair_tail d rest hP
    by_cases hd : d = '\n'
    · by_cases hk : k < 2
      · rw [nlC_cons, if_pos hd, if_pos hk]
        apply noSpTabPair_cons_of _ _ (ih (k + 1) hP')
        intro e _ hpair
        exact absurd hpair.1 (by decide)
      · rw [nlC_cons, if_pos hd, if_neg hk]
        exact ih k hP'
    · rw [nlC_cons, if_neg hd]
      apply noSpTabPair_cons_of _ _ (ih 0 hP')
      intro e he hpair
      rw [nlC_head] at he
      exact noSpTabPair_head_pair d e rest hP he hpair

/-- The newline collapser is the identity on text with no newline
triples (counter variants as needed by the run structure). -/
theorem nlC_eq_self (l : List Char) (hP : noTripleNl l) :
    nlC l 0 = l ∧ (¬ startsTwoNl l → nlC l 1 = l) ∧
      ((∀ c, l.head? = some c → c ≠ '\n') → ∀ k, nlC l k = l) := by
  induction l with
  | nil => exact ⟨rfl, fun _ => rfl, fun _ _ => rfl⟩
  | cons d rest ih =>
    have hP' : noTripleNl rest := noTripleNl_tail d rest hP
    have ihr := ih hP'
    by_cases hd : d = '\n'
    · refine ⟨?_, ?_, ?_⟩
      · rw [nlC_cons, if_pos hd, if_pos (by norm_num)]
        rw [ihr.2.1 (noTripleNl_cons_startsTwo d rest hP hd), hd]
      · intro hst
        rw [nlC_cons, if_pos hd, if_pos (by norm_num)]
        have hh : ∀ c, rest.head? = some c → c ≠ '\n' := by
          intro c hc hcn
          apply hst
          cases rest with
          | nil => simp at hc
          | cons e r =>
            rw [List.head?_cons, Option.some.injEq] at hc
            subst hc
            exact ⟨hd, hcn⟩
        rw [ihr.2.2 hh 2, hd]
      · intro hh
        exact absurd hd (hh d rfl)
    · have heq : ∀ k, nlC (d :: rest) k = d :: nlC rest 0 := by
        intro k
        rw [nlC_cons, if_neg hd]
      refine ⟨?_, fun _ => ?_, fun _ k => ?_⟩
      · rw [heq 0, ihr.1]
      · rw [heq 1, ihr.1]
      · rw [heq k, ihr.1]

/-! ### The boilerplate deletion machines -/

theorem hasPfx_length (p l : List Char) (h : hasPfx p l = true) :
    p.length ≤ l.length := by
  induction p generalizing l with
  | nil => simp
  | cons c p' ih =>
    cases l with
    | nil => simp [hasPfx] at h
    | cons d r =>
      unfold hasPfx at h
      rcases Bool.and_eq_true _ _ ▸ h with ⟨_, h2⟩
      have := ih r h2
      simpa using this

theorem hasPfx_append (p b a : List Char) (h : hasPfx p b = true) :
    hasPfx p (b ++ a) = true := by
  induction p generalizing b with
  | nil => rfl
  | cons c p' ih =>
    cases b with
    | nil => simp [hasPfx] at h
    | cons d r =>
      unfold hasPfx at h ⊢
      rcases Bool.and_eq_true _ _ ▸ h with ⟨h1, h2⟩
      rw [List.cons_append]
      rw [Bool.and_eq_true]
      exact ⟨h1, ih r h2⟩

theorem dropWhile_append_of_ne_nil (p : Char → Bool) (u a : List Char)
    (h : u.dropWhile p ≠ []) : (u ++ a).dropWhile p = u.dropWhile p ++ a := by
  induction u with
  | nil => simp [List.dropWhile] at h
  | cons c u' ih =>
    by_cases hc : p c
    · rw [List.dropWhile_cons_of_pos hc] at h
      rw [List.cons_append, List.dropWhile_cons_of_pos hc, ih h,
        List.dropWhile_cons_of_pos hc]
    · have hc' : p c = false := Bool.eq_false_iff.mpr hc
      rw [List.cons_append, List.dropWhile_cons_of_neg hc, List.dropWhile_cons_of_neg hc,
        List.cons_append]

/-- `pageCond` is monotone under extending the text to the right. -/
theorem pageCond_mono (b a : List Char) (h : pageCond b = true) :
    pageCond (b ++ a) = true := by
  unfold pageCond at h ⊢
  rcases Bool.and_eq_true _ _ ▸ h with ⟨h1, h2⟩
  rw [Bool.and_eq_true]
  refine ⟨hasPfx_append _ _ _ h1, ?_⟩
  have hlen : (9 : Nat) ≤ b.length := hasPfx_length pageLit b h1
  rw [List.drop_append_of_le_length hlen, List.any_append, h2]
  rfl

/-- `reportCond` is monotone under extending the text to the right. -/
theorem reportCond_mono (b a : List Char) (h : reportCond b = true) :
    reportCond (b ++ a) = true := by
  unfold reportCond at h ⊢
  rcases Bool.and_eq_true _ _ ▸ h with ⟨h1, h2⟩
  rcases Bool.and_eq_true _ _ ▸ h2 with ⟨h21, h22⟩
  have hhead : ((b.drop 18).dropWhile (fun c => c = ' ')).head? = some ':' := by
    exact of_decide_eq_true h21
  have hne : (b.drop 18).dropWhile (fun c => c = ' ') ≠ [] := by
    intro hnil
    rw [hnil] at hhead
    simp at hhead
  have hlen : (18 : Nat) ≤ b.length := hasPfx_length reportLit b h1
  rw [Bool.and_eq_true]
  refine ⟨hasPfx_append _ _ _ h1, ?_⟩
  rw [List.drop_append_of_le_length hlen,
    dropWhile_append_of_ne_nil _ _ _ hne]
  rw [Bool.and_eq_true]
  constructor
  · cases hv : (b.drop 18).dropWhile (fun c => c = ' ') with
    | nil => exact absurd hv hne
    | cons x v' =>
      rw [hv] at hhead
      rw [List.head?_cons, Option.some.injEq] at hhead
      rw [List.cons_append, List.head?_cons, hhead]
      exact decide_eq_true rfl
  · cases hv : (b.drop 18).dropWhile (fun c => c = ' ') with
    | nil => exact absurd hv hne
    | cons x v' =>
      rw [hv] at h22
      rw [List.cons_append]
      have : (x :: (v' ++ a)).drop 1 = v' ++ a := rfl
      rw [this, List.any_append]
      have : (x :: v').drop 1 = v' := rfl
      rw [this] at h22
      rw [h22]
      rfl

theorem rpGo_norm_cons (c : Char) (rest : List Char) :
    rpGo none (c :: rest) =
      if pageCond (c :: rest) then rpGo (some 8) rest else c :: rpGo none rest := rfl

theorem rpGo_length_le (l : List Char) : ∀ m, (rpGo m l).length ≤ l.length := by
  induction l with
  | nil => intro m; cases m <;> simp [rpGo]
  | cons c rest ih =>
    intro m
    match m with
    | none =>
      rw [rpGo_norm_cons]
      by_cases hc : pageCond (c :: rest)
      · rw [if_pos hc]
        exact le_trans (ih (some 8)) (Nat.le_succ _)
      · rw [if_neg hc]
        simpa using ih none
    | some (n + 1) =>
      have : rpGo (some (n + 1)) (c :: rest) = rpGo (some n) rest := rfl
      rw [this]
      exact le_trans (ih (some n)) (Nat.le_succ _)
    | some 0 =>
      have : rpGo (some 0) (c :: rest) =
          if c = '\n' then rpGo none rest else rpGo (some 0) rest := rfl
      rw [this]
      by_cases hc : c = '\n'
      · rw [if_pos hc]
        exact le_trans (ih none) (Nat.le_succ _)
      · rw [if_neg hc]
        exact le_trans (ih (some 0)) (Nat.le_succ _)

theorem rpGo_cons_id (c : Char) (l : List Char)
    (h : rpGo none (c :: l) = c :: l) :
    pageCond (c :: l) = false ∧ rpGo none l = l := by
  by_cases hc : pageCond (c :: l)
  · exfalso
    rw [rpGo_norm_cons, if_pos hc] at h
    have hlen := congrArg List.length h
    have := rpGo_length_le l (some 8)
    rw [hlen] at this
    simp at this
  · rw [rpGo_norm_cons, if_neg hc] at h
    exact ⟨Bool.eq_false_iff.mpr hc, List.cons.inj h |>.2⟩

theorem rpGo_id_suffix (a b : List Char) (h : rpGo none (a ++ b) = a ++ b) :
    rpGo none b = b := by
  induction a with
  | nil => exact h
  | cons c a' ih => exact ih (rpGo_cons_id c (a' ++ b) h).2

theorem rpGo_id_prefix (b a : List Char) (h : rpGo none (b ++ a) = b ++ a) :
    rpGo none b = b := by
  induction b with
  | nil => rfl
  | cons c b' ih =>
    have hstep := rpGo_cons_id c (b' ++ a) h
    have hcond : pageCond (c :: b') = false := by
      by_cases hc : pageCond (c :: b')
      · have := pageCond_mono (c :: b') a hc
        rw [List.cons_append] at this
        rw [this] at hstep
        exact absurd hstep.1 (by simp)
      · exact Bool.eq_false_iff.mpr hc
    rw [rpGo_norm_cons, hcond, if_neg (by simp), ih hstep.2]

theorem rrGo_norm_cons (c : Char) (rest : List Char) :
    rrGo none (c :: rest) =
      if reportCond (c :: rest) then rrGo (some (.lit 17)) rest
      else c :: rrGo none rest := rfl

theorem rrGo_length_le (l : List Char) : ∀ m, (rrGo m l).length ≤ l.length := by
  induction l with
  | nil => intro m; cases m <;> simp [rrGo]
  | cons c rest ih =>
    intro m
    match m with
    | none =>
      rw [rrGo_norm_cons]
      by_cases hc : reportCond (c :: rest)
      · rw [if_pos hc]
        exact le_trans (ih (some (.lit 17))) (Nat.le_succ _)
      · rw [if_neg hc]
        simpa using ih none
    | some (.lit n) =>
      have : rrGo (some (.lit n)) (c :: rest) =
          if n ≤ 1 then rrGo (some .sp) rest else rrGo (some (.lit (n - 1))) rest := rfl
      rw [this]
      by_cases hn : n ≤ 1
      · rw [if_pos hn]
        exact le_trans (ih (some .sp)) (Nat.le_succ _)
      · rw [if_neg hn]
        exact le_trans (ih (some (.lit (n - 1)))) (Nat.le_succ _)
    | some .sp =>
      have : rrGo (some .sp) (c :: rest) =
          if c = ' ' then rrGo (some .sp) rest else rrGo (some .toNl) rest := rfl
      rw [this]
      by_cases hc : c = ' '
      · rw [if_pos hc]
        exact le_trans (ih (some .sp)) (Nat.le_succ _)
      · rw [if_neg hc]
        exact le_trans (ih (some .toNl)) (Nat.le_succ _)
    | some .toNl =>
      have : rrGo (some .toNl) (c :: rest) =
          if c = '\n' then rrGo none rest else rrGo (some .toNl) rest := rfl
      rw [this]
      by_cases hc : c = '\n'
      · rw [if_pos hc]
        exact le_trans (ih none) (Nat.le_succ _)
      · rw [if_neg hc]
        exact le_trans (ih (some .toNl)) (Nat.le_succ _)

theorem rrGo_cons_id (c : Char) (l : List Char)
    (h : rrGo none (c :: l) = c :: l) :
    reportCond (c :: l) = false ∧ rrGo none l = l := by
  by_cases hc : reportCond (c :: l)
  · exfalso
    rw [rrGo_norm_cons, if_pos hc] at h
    have hlen := congrArg List.length h
    have := rrGo_length_le l (some (.lit 17))
    rw [hlen] at this
    simp at this
  · rw [rrGo_norm_cons, if_neg hc] at h
    exact ⟨Bool.eq_false_iff.mpr hc, List.cons.inj h |>.2⟩

theorem rrGo_id_suffix (a b : List Char) (h : rrGo none (a ++ b) = a ++ b) :
    rrGo none b = b := by
  induction a with
  | nil => exact h
  | cons c a' ih => exact ih (rrGo_cons_id c (a' ++ b) h).2

theorem rrGo_id_prefix (b a : List Char) (h : rrGo none (b ++ a) = b ++ a) :
    rrGo none b = b := by
  induction b with
  | nil => rfl
  | cons c b' ih =>
    have hstep := rrGo_cons_id c (b' ++ a) h
    have hcond : reportCond (c :: b') = false := by
      by_cases hc : reportCond (c :: b')
      · have := reportCond_mono (c :: b') a hc
        rw [List.cons_append] at this
        rw [this] at hstep
        exact absurd hstep.1 (by simp)
      · exact Bool.eq_false_iff.mpr hc
    rw [rrGo_norm_cons, hcond, if_neg (by simp), ih hstep.2]

/-- Deletion passes only emit characters of their input. -/
theorem mem_rpGo (l : List Char) (c : Char) : ∀ m, c ∈ rpGo m l → c ∈ l := by
  induction l with
  | nil => intro m h; cases m <;> simp [rpGo] at h
  | cons d rest ih =>
    intro m h
    match m with
    | none =>
      rw [rpGo_norm_cons] at h
      by_cases hc : pageCond (d :: rest)
      · rw [if_pos hc] at h
        exact List.mem_cons_of_mem d (ih (some 8) h)
      · rw [if_neg hc] at h
        rcases List.mem_cons.1 h with h' | h'
        · exact h' ▸ List.mem_cons_self d rest
        · exact List.mem_cons_of_mem d (ih none h')
    | some (n + 1) =>
      exact List.mem_cons_of_mem d (ih (some n) h)
    | some 0 =>
      have heq : rpGo (some 0) (d :: rest) =
          if d = '\n' then rpGo none rest else rpGo (some 0) rest := rfl
      rw [heq] at h
      by_cases hc : d = '\n'
      · rw [if_pos hc] at h
        exact List.mem_cons_of_mem d (ih none h)
      · rw [if_neg hc] at h
        exact List.mem_cons_of_mem d (ih (some 0) h)

theorem mem_rrGo (l : List Char) (c : Char) : ∀ m, c ∈ rrGo m l → c ∈ l := by
  induction l with
  | nil => intro m h; cases m <;> simp [rrGo] at h
  | cons d rest ih =>
    intro m h
    match m with
    | none =>
      rw [rrGo_norm_cons] at h
      by_cases hc : reportCond (d :: rest)
      · rw [if_pos hc] at h
        exact List.mem_cons_of_mem d (ih (some (.lit 17)) h)
      · rw [if_neg hc] at h
        rcases List.mem_cons.1 h with h' | h'
        · exact h' ▸ List.mem_cons_self d rest
        · exact List.mem_cons_of_mem d (ih none h')
    | some (.lit n) =>
      have heq : rrGo (some (.lit n)) (d :: rest) =
          if n ≤ 1 then rrGo (some .sp) rest else rrGo (some (.lit (n - 1))) rest := rfl
      rw [heq] at h
      by_cases hn : n ≤ 1
      · rw [if_pos hn] at h
        exact List.mem_cons_of_mem d (ih (some .sp) h)
      · rw [if_neg hn] at h
        exact List.mem_cons_of_mem d (ih (some (.lit (n - 1))) h)
    | some .sp =>
      have heq : rrGo (some .sp) (d :: rest) =
          if d = ' ' then rrGo (some .sp) rest else rrGo (some .toNl) rest := rfl
      rw [heq] at h
      by_cases hc : d = ' '
      · rw [if_pos hc] at h
        exact List.mem_cons_of_mem d (ih (some .sp) h)
      · rw [if_neg hc] at h
        exact List.mem_cons_of_mem d (ih (some .toNl) h)
    | some .toNl =>
      have heq : rrGo (some .toNl) (d :: rest) =
          if d = '\n' then rrGo none rest else rrGo (some .toNl) rest := rfl
      rw [heq] at h
      by_cases hc : d = '\n'
      · rw [if_pos hc] at h
        exact List.mem_cons_of_mem d (ih none h)
      · rw [if_neg hc] at h
        exact List.mem_cons_of_mem d (ih (some .toNl) h)

/-! ### Stripping -/

theorem dropWhile_dropWhile (p : Char → Bool) (l : List Char) :
    (l.dropWhile p).dropWhile p = l.dropWhile p := by
  induction l with
  | nil => rfl
  | cons c r ih =>
    by_cases hc : p c
    · rw [List.dropWhile_cons, if_pos hc]
      exact ih
    · rw [List.dropWhile_cons, if_neg hc, List.dropWhile_cons, if_neg hc]

theorem head_dropWhile_false (p : Char → Bool) (l : List Char) (c : Char)
    (h : (l.dropWhile p).head? = some c) : p c = false := by
  induction l with
  | nil => simp at h
  | cons d r ih =>
    by_cases hd : p d
    · rw [List.dropWhile_cons, if_pos hd] at h
      exact ih h
    · rw [List.dropWhile_cons, if_neg hd, List.head?_cons, Option.some.injEq] at h
      rw [← h]
      exact Bool.eq_false_iff.mpr hd

/-- The trailing-strip output is a prefix of the input. -/
theorem dropTrail_append (l : List Char) :
    dropTrail l ++ (l.reverse.takeWhile pyIsSpace).reverse = l := by
  rw [dropTrail, ← List.reverse_append, List.takeWhile_append_dropWhile,
    List.reverse_reverse]

theorem dropTrail_idem (l : List Char) : dropTrail (dropTrail l) = dropTrail l := by
  unfold dropTrail
  rw [List.reverse_reverse, dropWhile_dropWhile]

theorem head_of_append (a b l : List Char) (c : Char) (h : a ++ b = l)
    (hc : a.head? = some c) : l.head? = some c := by
  cases a with
  | nil => simp at hc
  | cons d r =>
    rw [List.head?_cons, Option.some.injEq] at hc
    rw [← h, List.cons_append, List.head?_cons, hc]

theorem dropLead_eq_self (l : List Char)
    (h : ∀ c, l.head? = some c → pyIsSpace c = false) : dropLead l = l := by
  cases l with
  | nil => rfl
  | cons c r =>
    have hc := h c rfl
    rw [dropLead, List.dropWhile_cons, if_neg (by rw [hc]; exact Bool.false_ne_true)]

theorem mem_dropLead (l : List Char) (c : Char) (h : c ∈ dropLead l) : c ∈ l :=
  (List.dropWhile_sublist _).mem h

theorem mem_dropTrail (l : List Char) (c : Char) (h : c ∈ dropTrail l) : c ∈ l := by
  rw [dropTrail, List.mem_reverse] at h
  exact List.mem_reverse.mp ((List.dropWhile_sublist _).mem h)

theorem mem_pyStrip (l : List Char) (c : Char) (h : c ∈ pyStrip l) : c ∈ l :=
  mem_dropLead l c (mem_dropTrail (dropLead l) c h)

theorem noSpTabPair_dropLead (l : List Char) (h : noSpTabPair l) :
    noSpTabPair (dropLead l) :=
  noSpTabPair_append_right (l.takeWhile pyIsSpace) (dropLead l)
    (by rw [dropLead, List.takeWhile_append_dropWhile]; exact h)

theorem noSpTabPair_dropTrail (l : List Char) (h : noSpTabPair l) :
    noSpTabPair (dropTrail l) :=
  noSpTabPair_append_left (dropTrail l) ((l.reverse.takeWhile pyIsSpace).reverse)
    (by rw [dropTrail_append]; exact h)

theorem noTripleNl_dropLead (l : List Char) (h : noTripleNl l) :
    noTripleNl (dropLead l) :=
  noTripleNl_append_right (l.takeWhile pyIsSpace) (dropLead l)
    (by rw [dropLead, List.takeWhile_append_dropWhile]; exact h)

theorem noTripleNl_dropTrail (l : List Char) (h : noTripleNl l) :
    noTripleNl (dropTrail l) :=
  noTripleNl_append_left (dropTrail l) ((l.reverse.takeWhile pyIsSpace).reverse)
    (by rw [dropTrail_append]; exact h)

/-! ### The whitespace-normalised text satisfies the invariants -/

theorem wsNormalized_no_cr (s : String) : '\r' ∉ wsNormalized s := by
  intro h
  rcases mem_nlC _ _ _ h with h1 | h1
  · rcases mem_spC _ _ _ h1 with h2 | h2
    · have := (List.mem_filter.mp h2).2
      simp at this
    · exact absurd h2 (by decide)
  · exact absurd h1 (by decide)

theorem wsNormalized_no_tab (s : String) : '\t' ∉ wsNormalized s := by
  intro h
  rcases mem_nlC _ _ _ h with h1 | h1
  · exact (spC_inv (stripCR s.toList) false).1 h1
  · exact absurd h1 (by decide)

theorem wsNormalized_pair (s : String) : noSpTabPair (wsNormalized s) :=
  nlC_preserves_pair _ 0 (spC_inv (stripCR s.toList) false).2.1

theorem wsNormalized_triple (s : String) : noTripleNl (wsNormalized s) :=
  (nlC_inv _ 0).1

/-- On text already free of carriage returns, tabs, space pairs and
newline triples, the whitespace-normalisation prefix is the identity. -/
theorem wsNormalized_eq_self (l : List Char) (hR : '\r' ∉ l) (hT : '\t' ∉ l)
    (hP : noSpTabPair l) (hN : noTripleNl l) :
    wsNormalized l.asString = l := by
  have h0 : (l.asString).toList = l := rfl
  unfold wsNormalized
  rw [h0]
  have h1 : stripCR l = l := by
    rw [stripCR]
    exact List.filter_eq_self.mpr (fun c hc => decide_eq_true (fun he => hR (he ▸ hc)))
  rw [h1, (spC_eq_self l hT hP).1, (nlC_eq_self l hN).1]

/-- C9 (amended): `normalize_text` IS idempotent on every input whose
whitespace-normalised text contains no `Page No:` line and no
`Report Released on ... :` line — i.e. whenever the two boilerplate
deletion passes find nothing to delete.  (Unconditional idempotence is
refuted by `c9_counterexample_page_removal_breaks_idempotence`: a deleted
`Page No:` line can join two blank lines into a newline triple that only
a second pass collapses.) -/
theorem c9_normalize_idempotent_when_no_boilerplate (s : String)
    (h1 : rpGo none (wsNormalized s) = wsNormalized s)
    (h2 : rrGo none (wsNormalized s) = wsNormalized s) :
    normalizeText (normalizeText s) = normalizeText s := by
  have hns : normalizeText s = (pyStrip (wsNormalized s)).asString := by
    rw [normalizeText, h1, h2]
  have hu1 : rpGo none (dropLead (wsNormalized s)) = dropLead (wsNormalized s) :=
    rpGo_id_suffix ((wsNormalized s).takeWhile pyIsSpace) (dropLead (wsNormalized s))
      (by rw [dropLead, List.takeWhile_append_dropWhile]; exact h1)
  have hu2 : rrGo none (dropLead (wsNormalized s)) = dropLead (wsNormalized s) :=
    rrGo_id_suffix ((wsNormalized s).takeWhile pyIsSpace) (dropLead (wsNormalized s))
      (by rw [dropLead, List.takeWhile_append_dropWhile]; exact h2)
  have ht1 : rpGo none (pyStrip (wsNormalized s)) = pyStrip (wsNormalized s) :=
    rpGo_id_prefix (dropTrail (dropLead (wsNormalized s)))
      (((dropLead (wsNormalized s)).reverse.takeWhile pyIsSpace).reverse)
      (by rw [dropTrail_append]; exact hu1)
  have ht2 : rrGo none (pyStrip (wsNormalized s)) = pyStrip (wsNormalized s) :=
    rrGo_id_prefix (dropTrail (dropLead (wsNormalized s)))
      (((dropLead (wsNormalized s)).reverse.takeWhile pyIsSpace).reverse)
      (by rw [dropTrail_append]; exact hu2)
  have hws : wsNormalized ((pyStrip (wsNormalized s)).asString) =
      pyStrip (wsNormalized s) := by
    apply wsNormalized_eq_self
    · exact fun h => wsNormalized_no_cr s (mem_pyStrip _ _ h)
    · exact fun h => wsNormalized_no_tab s (mem_pyStrip _ _ h)
    · exact noSpTabPair_dropTrail _ (noSpTabPair_dropLead _ (wsNormalized_pair s))
    · exact noTripleNl_dropTrail _ (noTripleNl_dropLead _ (wsNormalized_triple s))
  have hL : dropLead (pyStrip (wsNormalized s)) = pyStrip (wsNormalized s) := by
    apply dropLead_eq_self
    intro c hc
    apply head_dropWhile_false pyIsSpace (wsNormalized s) c
    have := head_of_append (pyStrip (wsNormalized s))
      (((dropLead (wsNormalized s)).reverse.takeWhile pyIsSpace).reverse)
      (dropLead (wsNormalized s)) c (dropTrail_append (dropLead (wsNormalized s))) hc
    rw [dropLead] at this
    exact this
  have hst : pyStrip (pyStrip (wsNormalized s)) = pyStrip (wsNormalized s) := by
    rw [pyStrip, hL]
    exact dropTrail_idem (dropLead (wsNormalized s))
  rw [hns, normalizeText, hws, ht1, ht2, hst, ← hns]

/-- C9 witness: a concrete boilerplate-free input on which the theorem
applies; its whitespace-normalised text is kept fixed by both deletion
machines, and `normalize_text` is idempotent on it. -/
theorem c9_witness_no_boilerplate :
    normalizeText (normalizeText "Hello  world\r\n\n\nEnd of report") =
      normalizeText "Hello  world\r\n\n\nEnd of report" :=
  c9_normalize_idempotent_when_no_boilerplate "Hello  world\r\n\n\nEnd of report"
    (by decide) (by decide)
